import Mathlib

/-!
# goloop: network layer, genesis transaction, system scores

Verification development for the queue and the helpers of `network/network_test.go`,
for `service/transaction/genesis_v3.go` and for `service/contract/systemscore.go`.
The ring-buffer queue is laid out as the test file builds it (`zeroQueue`,
`newTestQueue`); its operations, whose Go source is absent from the source tree, are
modelled from the specification and say so in their doc comments. Helpers of other
packages that the embedded functions call are parameters, gathered in `HashEnv`,
`DeployEnv` and `InvokeEnv`.
-/

namespace Goloop

/-! ## Definitions -/

/-- Peer-level failure kinds named by the tests and by section 7 of the specification. -/
inductive NetError where
  | QueueOverflow
  | NotAvailable
  | NotAllowed
  | PeerNotFound
  deriving DecidableEq, Repr

/-- The `queue` struct as the literals in `network_test.go` fill it: `buf` (slots, `nil`
is `none`), write index `w`, read index `r`, capacity `size`, slot count `len`. The `wait`
map (wake-up channels of a blocked consumer) carries no message and is left out. -/
structure queue (α : Type) where
  buf : List (Option α)
  w : Nat
  r : Nat
  size : Nat
  len : Nat
  deriving DecidableEq, Repr

/-- `zeroQueue` of `network_test.go`: one slot, capacity zero, both indices zero. -/
def zeroQueue {α : Type} : queue α :=
  { buf := List.replicate 1 none, w := 0, r := 0, size := 0, len := 1 }

/-- `newTestQueue(size)` of `network_test.go`: `size + 1` empty slots, both indices zero.
The `testQueue` wrapper only adds the channel that lets a test stall `Pop`. -/
def newTestQueue {α : Type} (size : Nat) : queue α :=
  { buf := List.replicate (size + 1) none, w := 0, r := 0, size := size, len := size + 1 }

/-- Successor of a ring index: wraps to zero at the end of the buffer. -/
def queue.next {α : Type} (q : queue α) (i : Nat) : Nat :=
  if q.len ≤ i + 1 then 0 else i + 1

/-- Modelled from the spec: `queue.Push`, whose source (queue.go) is not among the files.
Section 4.3: push is non-blocking and fails with `QueueOverflow` when the ring buffer is
at capacity, dropping the message. With the `size + 1` slot layout of `newTestQueue` the
buffer is at capacity when advancing `w` would make it meet `r`. The result pairs the
error (`none` is Go's `nil`) with the queue after the call. -/
def queue.Push {α : Type} (q : queue α) (ctx : α) : Option NetError × queue α :=
  let w := q.next q.w
  if q.r = w then (some NetError.QueueOverflow, q)
  else (none, { q with buf := q.buf.set q.w (some ctx), w := w })

/-- Modelled from the spec: `queue.Pop`, whose source (queue.go) is not among the files.
Section 2: single-consumer pop of a FIFO ring buffer; an empty queue (`r = w`) yields
`nil`, otherwise the slot at `r` is handed out, cleared, and `r` advances. -/
def queue.Pop {α : Type} (q : queue α) : Option α × queue α :=
  if q.r = q.w then (none, q)
  else (q.buf.getD q.r none, { q with buf := q.buf.set q.r none, r := q.next q.r })

/-- Number of messages a queue holds: the cyclic distance from `r` to `w`. -/
def queue.held {α : Type} (q : queue α) : Nat :=
  if q.r ≤ q.w then q.w - q.r else q.w + q.len - q.r

/-- Ring index of the `i`-th pending message. -/
def queue.slot {α : Type} (q : queue α) (i : Nat) : Nat :=
  if q.r + i < q.len then q.r + i else q.r + i - q.len

/-- Shape invariant of every queue built by `newTestQueue` or `zeroQueue`. -/
def queue.WF {α : Type} (q : queue α) : Prop :=
  q.len = q.size + 1 ∧ q.buf.length = q.len ∧ q.r < q.len ∧ q.w < q.len

instance {α : Type} (q : queue α) : Decidable q.WF := by
  unfold queue.WF; infer_instance

/-- One call on a queue, as a test or a peer issues it. -/
inductive QueueOp (α : Type) where
  | push (ctx : α)
  | pop
  deriving DecidableEq, Repr

/-- What an interleaving of pushes and pops has produced so far. -/
structure QueueRun (α : Type) where
  pushed : List α
  popped : List α
  q : queue α
  deriving DecidableEq, Repr

/-- Apply one call and record a successful push or a non-nil pop. -/
def QueueRun.apply {α : Type} (t : QueueRun α) : QueueOp α → QueueRun α
  | QueueOp.push ctx =>
    match t.q.Push ctx with
    | (none, q') => { t with pushed := t.pushed ++ [ctx], q := q' }
    | (some _, q') => { t with q := q' }
  | QueueOp.pop =>
    match t.q.Pop with
    | (some ctx, q') => { t with popped := t.popped ++ [ctx], q := q' }
    | (none, q') => { t with q := q' }

/-- Run an interleaving of pushes and pops from a given queue. -/
def runOps {α : Type} (q : queue α) (ops : List (QueueOp α)) : QueueRun α :=
  ops.foldl QueueRun.apply { pushed := [], popped := [], q := q }

/-- Pop until the queue answers `nil` (at most `fuel` times), collecting the messages. -/
def queue.drain {α : Type} : Nat → queue α → List α
  | 0, _ => []
  | fuel + 1, q =>
    match q.Pop with
    | (some ctx, q') => ctx :: queue.drain fuel q'
    | (none, _) => []


/-- A queue of capacity two after two successful pushes. -/
def fullTestQueue : queue Nat :=
  (runOps (newTestQueue 2) [QueueOp.push 10, QueueOp.push 20]).q

/-- Representation: the queue is well formed and holds exactly `l`, oldest first. -/
def queue.Rep {α : Type} (q : queue α) (l : List α) : Prop :=
  q.WF ∧ q.held = l.length ∧ ∀ i, i < l.length → q.buf[q.slot i]? = some (l[i]?)

/-! ### Peers, protocols and reactors of `network_test.go` -/

/-- Node identity (`module.PeerID`), as a number. -/
abbrev PeerID := Nat

/-- Protocol identifiers of `network_test.go`. -/
def ProtoTestNetworkBroadcast : Nat := 0x0100
/-- Protocol identifier of the multicast test messages. -/
def ProtoTestNetworkMulticast : Nat := 0x0200
/-- Protocol identifier of the unicast request. -/
def ProtoTestNetworkRequest : Nat := 0x0300
/-- Protocol identifier of the unicast response. -/
def ProtoTestNetworkResponse : Nat := 0x0400
/-- Protocol identifier of the neighbour broadcast. -/
def ProtoTestNetworkNeighbor : Nat := 0x0500

/-- The relay flag `re` that `testReactor.OnReceive` returns for a protocol: `true` for
the broadcast and multicast protocols, `false` for the neighbour protocol and the default
case, and the zero value `false` for request and response. -/
def testReactor.OnReceive (pi : Nat) : Bool :=
  if pi = ProtoTestNetworkBroadcast then true
  else if pi = ProtoTestNetworkNeighbor then false
  else if pi = ProtoTestNetworkMulticast then true
  else false

/-! ### Genesis transaction (`service/transaction/genesis_v3.go`) -/

/-- One byte. -/
abbrev Byte := Fin 256

/-- A Go byte slice that is not `nil`. -/
abbrev Bytes := List Byte

/-- Error codes the sources construct errors from. -/
inductive ErrorCode where
  | InvalidGenesisError
  | IllegalArgumentError
  | UnsupportedError
  | InvalidStateError
  | UnknownError
  | InvalidNetworkError
  deriving DecidableEq, Repr

/-- A Go `error` value: its code and its message (a format string stands for the
formatted message). -/
structure GoError where
  code : ErrorCode
  msg : String
  deriving DecidableEq, Repr

/-- `preInstalledScores`: addresses are of type `A` (`common.Address` is declared
elsewhere), pointers are options. -/
structure preInstalledScores (A : Type) where
  Owner : Option A
  ContentType : String
  ContentID : String
  Content : String
  Params : Option Bytes
  deriving DecidableEq, Repr

/-- `accountInfo`: `Balance` and `Score` are pointers, `nil` is `none`. -/
structure accountInfo (A : Type) where
  Name : String
  Address : A
  Balance : Option Int
  Score : Option (preInstalledScores A)
  deriving DecidableEq, Repr

/-- `genesisV3JSON`: the decoded genesis with the raw bytes and the cached
transaction hash (`nil` is `none`). -/
structure genesisV3JSON (A : Type) where
  Accounts : List (accountInfo A)
  Message : String
  Chain : Bytes
  NID : Option Int
  raw : Bytes
  txHash : Option Bytes
  deriving DecidableEq, Repr

/-- `genesisV3`: the embedded `*genesisV3JSON`, the cached `hash` and the cached `nid`. -/
structure genesisV3 (A : Type) where
  json : genesisV3JSON A
  hash : Option Bytes
  nid : Int
  deriving DecidableEq, Repr

/-- The helpers `calcHash` calls that are declared elsewhere: `SerializeJSON(raw, nil,
nil)` and `crypto.SHA3Sum256`. -/
structure HashEnv where
  SerializeJSON : Bytes → Except GoError Bytes
  SHA3Sum256 : Bytes → Bytes

/-- The bytes of the string `"genesis_tx."`. -/
def genesisTxTag : Bytes :=
  "genesis_tx.".toList.map (fun c => Fin.ofNat c.toNat)

/-- `genesisV3JSON.calcHash`: SHA3-256 of `"genesis_tx."` followed by the serialized raw
JSON. -/
def genesisV3JSON.calcHash {A : Type} (env : HashEnv) (g : genesisV3JSON A) :
    Except GoError Bytes :=
  match env.SerializeJSON g.raw with
  | Except.error err => Except.error err
  | Except.ok bs => Except.ok (env.SHA3Sum256 (genesisTxTag ++ bs))

/-- `genesisV3JSON.updateTxHash`: compute the hash only while `txHash` is `nil`; the
result pairs the returned error with the receiver after the call. -/
def genesisV3JSON.updateTxHash {A : Type} (env : HashEnv) (g : genesisV3JSON A) :
    Option GoError × genesisV3JSON A :=
  match g.txHash with
  | none =>
    match g.calcHash env with
    | Except.error err => (some err, g)
    | Except.ok h => (none, { g with txHash := some h })
  | some _ => (none, g)

/-- `genesisV3.ID`: `updateTxHash` with its error dropped, then the cached `txHash`. -/
def genesisV3.ID {A : Type} (env : HashEnv) (g : genesisV3 A) : Option Bytes × genesisV3 A :=
  let j := (g.json.updateTxHash env).2
  (j.txHash, { g with json := j })

/-- `genesisV3.Verify`: the accounts are put in a map keyed by name, then `"treasury"`
and `"god"` are looked up in that order. The map is the lookup function; the timestamp
is not read. -/
def genesisV3.Verify {A : Type} (g : genesisV3 A) (_ts : Int) : Option GoError :=
  let acs : String → Option (accountInfo A) :=
    g.json.Accounts.foldl (fun m ac => fun k => if k = ac.Name then some ac else m k)
      (fun _ => none)
  if (acs "treasury").isNone then
    some { code := ErrorCode.InvalidGenesisError, msg := "NoTreasuryAccount" }
  else if (acs "god").isNone then
    some { code := ErrorCode.InvalidGenesisError, msg := "NoGodAccount" }
  else none

/-- `NIDForGenesisID`: `int(txid[2]) | int(txid[1])<<8 | int(txid[0])<<16`; `none` is the
index-out-of-range panic on a slice shorter than three bytes. -/
def NIDForGenesisID (txid : Bytes) : Option Int :=
  match txid[2]?, txid[1]?, txid[0]? with
  | some b2, some b1, some b0 =>
    some (Int.ofNat (b2.val ||| (b1.val <<< 8) ||| (b0.val <<< 16)))
  | _, _, _ => none

/-- `genesisV3.NID`: while the cached `nid` is zero it is computed, from the transaction
ID when the JSON has no `nid`, else from the JSON field; the result pairs the returned
value with the receiver after the call, `none` is the panic of `NIDForGenesisID`. -/
def genesisV3.NID {A : Type} (env : HashEnv) (g : genesisV3 A) : Option (Int × genesisV3 A) :=
  if g.nid = 0 then
    match g.json.NID with
    | none =>
      match NIDForGenesisID ((g.ID env).1.getD []) with
      | none => none
      | some v => some (v, { (g.ID env).2 with nid := v })
    | some v => some (v, { g with nid := v })
  else some (g.nid, g)

/-- `genesisV3.ValidateNetwork`: `g.NID() == nid`. -/
def genesisV3.ValidateNetwork {A : Type} (env : HashEnv) (g : genesisV3 A) (nid : Int) :
    Option (Bool × genesisV3 A) :=
  match g.NID env with
  | none => none
  | some (v, g') => some (decide (v = nid), g')

/-- Names of the accounts of a genesis, in order. -/
def genesisV3.names {A : Type} (g : genesisV3 A) : List String :=
  g.json.Accounts.map accountInfo.Name

/-- Call `NID()` `k` times in a row: the values returned, and the receiver afterwards. -/
def genesisV3.NIDcalls {A : Type} (env : HashEnv) : Nat → genesisV3 A →
    Option (List Int × genesisV3 A)
  | 0, g => some ([], g)
  | k + 1, g =>
    match g.NID env with
    | none => none
    | some (v, g') =>
      match genesisV3.NIDcalls env k g' with
      | none => none
      | some (vs, g'') => some (v :: vs, g'')

/-- A genesis with accounts `treasury` and `god`, no `nid` field, and a transaction hash
that starts with the bytes 1, 2, 3. -/
def sampleGenesis : genesisV3 Nat :=
  { json :=
      { Accounts :=
          [ { Name := "god", Address := 1, Balance := some 100, Score := none },
            { Name := "treasury", Address := 2, Balance := some 5, Score := none } ]
        Message := "", Chain := [], NID := none, raw := []
        txHash := some [1, 2, 3, 4] }
    hash := none, nid := 0 }

/-- A hashing environment for examples: serialization is the identity and the digest is
a fixed four-byte string. -/
def sampleHashEnv : HashEnv :=
  { SerializeJSON := fun bs => Except.ok bs, SHA3Sum256 := fun _ => [1, 2, 3, 4] }

/-- The network ID a genesis stands for: the JSON `nid` when present, else the value
`NIDForGenesisID` gives for the cached transaction hash. -/
def genesisV3.netID {A : Type} (g : genesisV3 A) : Option Int :=
  match g.json.NID with
  | some v => some v
  | none => NIDForGenesisID (g.json.txHash.getD [])

/-- `module.Status`: the values the sources name, and any other code. -/
inductive Status where
  | StatusSuccess
  | StatusSystemError
  | StatusMethodNotFound
  | StatusInvalidParameter
  | StatusOther (code : Nat)
  deriving DecidableEq, Repr

/-- `strings.HasPrefix(s, p)`. -/
def HasPrefix (s p : String) : Bool := p.toList.isPrefixOf s.toList

/-- `strings.TrimPrefix(s, p)`: `s` without the leading `p`, or `s` itself. -/
def TrimPrefix (s p : String) : String :=
  if HasPrefix s p then String.mk (s.toList.drop p.length) else s

/-- The constant `contentIdHash`. -/
def contentIdHash : String := "hash:"

/-- The constant `contentIdCid`. -/
def contentIdCid : String := "cid:"

/-- The arguments `contract.NewDeployHandlerForPreInstall` is called with (the logger
apart): owner, address of the account, content type, content bytes, parameters. -/
structure DeployHandler (A : Type) where
  owner : Option A
  address : A
  contentType : String
  content : Bytes
  params : Option Bytes
  deriving DecidableEq, Repr

/-- A value stored in a `scoredb` variable of the system account. -/
inductive VarValue (A : Type) where
  | address (a : A)
  | int (v : Int)
  deriving DecidableEq, Repr

/-- The state `Execute` writes: the variables of the system account (`scoredb.NewVarDB(as,
name)`) and the balance of each account state, keyed by account ID. -/
structure World (A K : Type) where
  vars : String → Option (VarValue A)
  balance : K → Int

/-- What `Execute` and `deployPreInstall` use and the sources declare elsewhere:
`Address.ID()`, the variable names `state.VarNetwork` and `state.VarTotalSupply`, the
outcome of storing the total supply, the callees of `deployChainScore` as one step,
`hex.DecodeString` with its error dropped, `ctx.GetPreInstalledScore`, and `cc.Call` on a
deploy handler (its status and the state afterwards). -/
structure DeployEnv (A K : Type) where
  ID : A → K
  VarNetwork : String
  VarTotalSupply : String
  totalSupplySetError : Int → Option GoError
  deployChainScore : World A K → Option GoError × World A K
  hexDecode : String → Bytes
  GetPreInstalledScore : String → Except GoError Bytes
  Call : DeployHandler A → World A K → Status × World A K

/-- What `deployPreInstall` decides for one account from its score fields. -/
inductive ScoreAction (A : Type) where
  | skip
  | install (h : DeployHandler A)
  | fail (err : GoError)
  deriving DecidableEq, Repr

/-- The branch `deployPreInstall` takes for one account (lines 225-267): no score, a
non-empty `content`, a `contentId` with the `hash:` or the `cid:` tag, another
`contentId`, or neither field. The write of the stripped content back into the score
record is not tracked; nothing reads it afterwards. -/
def scoreAction {A K : Type} (env : DeployEnv A K) (acc : accountInfo A) : ScoreAction A :=
  match acc.Score with
  | none => ScoreAction.skip
  | some score =>
    if score.Content ≠ "" then
      let content := if HasPrefix score.Content "0x" then TrimPrefix score.Content "0x"
        else score.Content
      ScoreAction.install
        { owner := score.Owner, address := acc.Address, contentType := score.ContentType,
          content := env.hexDecode content, params := score.Params }
    else if score.ContentID ≠ "" then
      if HasPrefix score.ContentID contentIdHash = true then
        match env.GetPreInstalledScore (TrimPrefix score.ContentID contentIdHash) with
        | Except.error _ =>
          ScoreAction.fail { code := ErrorCode.InvalidGenesisError,
                             msg := "Fail to get PreInstalledScore for ID=%s" }
        | Except.ok content =>
          ScoreAction.install
            { owner := score.Owner, address := acc.Address, contentType := score.ContentType,
              content := content, params := score.Params }
      else if HasPrefix score.ContentID contentIdCid = true then
        ScoreAction.fail { code := ErrorCode.UnsupportedError,
                           msg := "CID prefix is't Unsupported" }
      else
        ScoreAction.fail { code := ErrorCode.InvalidGenesisError,
                           msg := "SCORE<%s> Invalid contentId=%q" }
    else
      ScoreAction.fail { code := ErrorCode.InvalidGenesisError,
                         msg := "There is no content for score %s" }

/-- The loop of `deployPreInstall` over the accounts: skip, fail and return, or call the
deploy handler and return on a status other than success. -/
def deployAccounts {A K : Type} (env : DeployEnv A K) :
    List (accountInfo A) → World A K → Option GoError × World A K
  | [], w => (none, w)
  | acc :: rest, w =>
    match scoreAction env acc with
    | ScoreAction.skip => deployAccounts env rest w
    | ScoreAction.fail err => (some err, w)
    | ScoreAction.install h =>
      if (env.Call h w).1 ≠ Status.StatusSuccess then
        (some { code := ErrorCode.InvalidGenesisError,
                msg := "FAIL to install pre-installed score.status : %d, addr : %v\n" },
          (env.Call h w).2)
      else deployAccounts env rest (env.Call h w).2

/-- `genesisV3.deployPreInstall`: deploy the chain score, wrapping its error as
InvalidGenesisError, then run the loop over the accounts. -/
def genesisV3.deployPreInstall {A K : Type} (env : DeployEnv A K) (g : genesisV3 A)
    (w : World A K) : Option GoError × World A K :=
  match (env.deployChainScore w).1 with
  | some _ =>
    (some { code := ErrorCode.InvalidGenesisError,
            msg := "FAIL to deploy ChainScore err=%+v\n" }, (env.deployChainScore w).2)
  | none => deployAccounts env g.json.Accounts (env.deployChainScore w).2

/-- The genesis `g` with its account list replaced by `accs`. -/
def genesisV3.withAccounts {A : Type} (g : genesisV3 A) (accs : List (accountInfo A)) :
    genesisV3 A :=
  { g with json := { g.json with Accounts := accs } }

/-- An environment for examples in which a call of a deploy handler succeeds and leaves a
trace: the balance at the handler's address becomes the number of content bytes plus one.
The hex decoder of the example answers no bytes. -/
def recordingDeployEnv : DeployEnv Nat Nat :=
  { ID := fun a => a
    VarNetwork := "network"
    VarTotalSupply := "total_supply"
    totalSupplySetError := fun _ => none
    deployChainScore := fun w => (none, w)
    hexDecode := fun _ => []
    GetPreInstalledScore := fun s =>
      if s = "abc" then Except.ok [1]
      else Except.error { code := ErrorCode.UnknownError, msg := "not found" }
    Call := fun h w =>
      (Status.StatusSuccess,
        { vars := w.vars
          balance := fun k => if k = h.address then (h.content.length : Int) + 1
                              else w.balance k }) }

/-- A genesis whose second account has a score with both content and a `cid:` content ID
and whose third account has a score with a `cid:` content ID only. -/
def contentGenesis : genesisV3 Nat :=
  { json :=
      { Accounts :=
          [ { Name := "god", Address := 1, Balance := some 100, Score := none },
            { Name := "a", Address := 2, Balance := none,
              Score := some { Owner := none, ContentType := "application/zip",
                              ContentID := "cid:xyz", Content := "0x00", Params := none } },
            { Name := "b", Address := 3, Balance := none,
              Score := some { Owner := none, ContentType := "application/zip",
                              ContentID := "cid:xyz", Content := "", Params := none } } ]
        Message := "", Chain := [], NID := none, raw := []
        txHash := some [1, 2, 3, 4] }
    hash := none, nid := 0 }

/-- The first loop of `Execute` (lines 162-172): for each account with a balance, store
its address under its name, set the balance of the account state with its ID, and add the
balance to the running total; an account with a `nil` balance is passed over. -/
def executeAccounts {A K : Type} [DecidableEq K] (env : DeployEnv A K) :
    List (accountInfo A) → World A K × Int → World A K × Int
  | [], s => s
  | info :: rest, (w, total) =>
    match info.Balance with
    | none => executeAccounts env rest (w, total)
    | some b =>
      executeAccounts env rest
        ({ vars := fun k => if k = info.Name then some (VarValue.address info.Address)
                     else w.vars k
           balance := fun k => if k = env.ID info.Address then b else w.balance k },
          total + b)

/-- The receipt `Execute` returns: its status after `SetResult`. -/
structure Receipt where
  status : Status
  deriving DecidableEq, Repr

/-- The state `Execute` has written when it calls `deployPreInstall`: the accounts, the
network ID under `VarNetwork`, the total supply under `VarTotalSupply`. -/
def genesisState {A K : Type} [DecidableEq K] (env : DeployEnv A K) (g : genesisV3 A)
    (w : World A K) (nid : Int) : World A K :=
  let s := executeAccounts env g.json.Accounts (w, 0)
  { vars := fun k =>
      if k = env.VarTotalSupply then some (VarValue.int s.2)
      else if k = env.VarNetwork then some (VarValue.int nid)
      else s.1.vars k
    balance := s.1.balance }

/-- `genesisV3.Execute`: write the accounts, store the network ID and the total supply
(returning the error of the latter), deploy the pre-installed scores (returning its
error), and answer a receipt with status success. The result is the returned pair with
the state afterwards; `none` is the panic of `NID()`. -/
def genesisV3.Execute {A K : Type} [DecidableEq K] (henv : HashEnv) (env : DeployEnv A K)
    (g : genesisV3 A) (w : World A K) : Option (Except GoError Receipt × World A K) :=
  let s := executeAccounts env g.json.Accounts (w, 0)
  match g.NID henv with
  | none => none
  | some (nid, _) =>
    let w1 : World A K :=
      { s.1 with vars := fun k => if k = env.VarNetwork then some (VarValue.int nid)
                                  else s.1.vars k }
    match env.totalSupplySetError s.2 with
    | some err => some (Except.error err, w1)
    | none =>
      match g.deployPreInstall env (genesisState env g w nid) with
      | (some err, w2) => some (Except.error err, w2)
      | (none, w2) => some (Except.ok { status := Status.StatusSuccess }, w2)

/-- An environment for examples: addresses are numbers and their own IDs, storing the
total supply succeeds, the chain score deploys without touching the state, every call of
a deploy handler succeeds without touching the state, and only the pre-installed score
`abc` is known. -/
def sampleDeployEnv : DeployEnv Nat Nat :=
  { ID := fun a => a
    VarNetwork := "network"
    VarTotalSupply := "total_supply"
    totalSupplySetError := fun _ => none
    deployChainScore := fun w => (none, w)
    hexDecode := fun _ => []
    GetPreInstalledScore := fun s =>
      if s = "abc" then Except.ok [1]
      else Except.error { code := ErrorCode.UnknownError, msg := "not found" }
    Call := fun _ w => (Status.StatusSuccess, w) }

/-- The empty state. -/
def emptyWorld {A K : Type} : World A K :=
  { vars := fun _ => none, balance := fun _ => 0 }

/-- The accounts of a genesis that carry a balance. -/
def genesisV3.funded {A : Type} (g : genesisV3 A) : List (accountInfo A) :=
  g.json.Accounts.filter (fun a => a.Balance.isSome)

/-- An environment in which an address is a contract flag with a body and its ID is the
body alone, so that an externally owned account and a contract with the same body share
one account state; everything else as in `sampleDeployEnv`. -/
def flagDeployEnv : DeployEnv (Bool × Nat) Nat :=
  { ID := fun a => a.2
    VarNetwork := "network"
    VarTotalSupply := "total_supply"
    totalSupplySetError := fun _ => none
    deployChainScore := fun w => (none, w)
    hexDecode := fun _ => []
    GetPreInstalledScore := fun _ =>
      Except.error { code := ErrorCode.UnknownError, msg := "not found" }
    Call := fun _ w => (Status.StatusSuccess, w) }

/-- A genesis with two funded accounts whose addresses differ only in the contract
flag. -/
def twinGenesis : genesisV3 (Bool × Nat) :=
  { json :=
      { Accounts :=
          [ { Name := "god", Address := (false, 7), Balance := some 10, Score := none },
            { Name := "treasury", Address := (true, 7), Balance := some 5, Score := none } ]
        Message := "", Chain := [], NID := some 1, raw := []
        txHash := some [1, 2, 3, 4] }
    hash := none, nid := 0 }

/-! ### System scores (`service/contract/systemscore.go`) -/

/-- The constant `FUNC_PREFIX`. -/
def FUNC_PREFIX : String := "Ex_"

/-- What `v.Interface()` yields for a value a method returned or a decoded parameter:
`nil`, a value that is an `error`, or any other value. -/
inductive Iface (V : Type) where
  | nil
  | error (e : GoError)
  | value (v : V)
  deriving DecidableEq, Repr

/-- A method of a score as `reflect.ValueOf(score).MethodByName` hands it out: the types
of its parameters and what calling it returns (`none` when the call panics). -/
structure SysMethod (V T : Type) where
  In : List T
  Call : List (Iface V) → Option (List (Iface V))

/-- What `Invoke` uses and the sources declare elsewhere: `common.DecodeAny` (an error, or
the decoded value when it is a `[]interface{}`, `some`, and when it is not, `none`), the
`AssignableTo` test of a valid value against a parameter type, the zero value of a type,
`scoreresult.StatusOf`, and `common.EncodeAny` with its error dropped. -/
structure InvokeEnv (V T P O : Type) where
  DecodeAny : P → Except GoError (Option (List (Iface V)))
  AssignableTo : Iface V → T → Bool
  Zero : T → Iface V
  StatusOf : GoError → Status
  EncodeAny : Iface V → Option O

/-- The loop of `Invoke` that fills `objects` (lines 218-231): an invalid (`nil`)
parameter becomes the zero value of the parameter type, a value that is not assignable
ends the call (`none`), any other value is passed on. -/
def InvokeEnv.objects {V T P O : Type} (env : InvokeEnv V T P O) :
    List (Iface V) → List T → Option (List (Iface V))
  | p :: ps, t :: ts =>
    match p with
    | Iface.nil => (env.objects ps ts).map (fun rest => env.Zero t :: rest)
    | _ =>
      if env.AssignableTo p t then (env.objects ps ts).map (fun rest => p :: rest)
      else none
  | _, _ => some []

/-- The loop of `Invoke` over the returned values (lines 241-255), from index `i` on:
the value at the last index sets the status when it is not `nil`, every other value
replaces `output`. -/
def InvokeEnv.resultLoop {V T P O : Type} (env : InvokeEnv V T P O) (resultLen : Nat) :
    Nat → List (Iface V) → Status × Iface V → Status × Iface V
  | _, [], st => st
  | i, v :: vs, (status, output) =>
    if i + 1 = resultLen then
      match v with
      | Iface.nil => env.resultLoop resultLen (i + 1) vs (status, output)
      | Iface.error e => env.resultLoop resultLen (i + 1) vs (env.StatusOf e, output)
      | Iface.value _ =>
        env.resultLoop resultLen (i + 1) vs (Status.StatusSystemError, output)
    else env.resultLoop resultLen (i + 1) vs (status, v)

/-- `Invoke`: look the method `Ex_<method>` up, decode the parameters, check their number
and assignability, call the method, and derive status and result from the returned
values; a panic of the call is recovered into `StatusSystemError`. The result is
(status, result, steps), steps being zero throughout. -/
def Invoke {V T P O : Type} (env : InvokeEnv V T P O)
    (score : String → Option (SysMethod V T)) (method : String) (paramObj : P) :
    Status × Option O × Int :=
  match score (FUNC_PREFIX ++ method) with
  | none => (Status.StatusMethodNotFound, none, 0)
  | some m =>
    match env.DecodeAny paramObj with
    | Except.error _ => (Status.StatusInvalidParameter, none, 0)
    | Except.ok none => (Status.StatusInvalidParameter, none, 0)
    | Except.ok (some params) =>
      if params.length ≠ m.In.length then (Status.StatusInvalidParameter, none, 0)
      else
        match env.objects params m.In with
        | none => (Status.StatusInvalidParameter, none, 0)
        | some objects =>
          match m.Call objects with
          | none => (Status.StatusSystemError, none, 0)
          | some r =>
            ((env.resultLoop r.length 0 r (Status.StatusSuccess, Iface.nil)).1,
              env.EncodeAny (env.resultLoop r.length 0 r (Status.StatusSuccess, Iface.nil)).2,
              0)

/-- The status the last returned value stands for: success for `nil` (and for no value
at all), the status of the error, or system error for a value that is no error. -/
def InvokeEnv.lastStatus {V T P O : Type} (env : InvokeEnv V T P O) (r : List (Iface V)) :
    Status :=
  match r.getLast? with
  | none => Status.StatusSuccess
  | some Iface.nil => Status.StatusSuccess
  | some (Iface.error e) => env.StatusOf e
  | some (Iface.value _) => Status.StatusSystemError

/-- The returned value just before the last one, `nil` when there is none. -/
def beforeLast {V : Type} (r : List (Iface V)) : Iface V :=
  (r.dropLast.getLast?).getD Iface.nil

/-- An environment for examples: values and types are numbers, parameters decode to
themselves, everything is assignable, and an error carries the status with its message
length as code. -/
def sampleInvokeEnv : InvokeEnv Nat Nat (List (Iface Nat)) (Iface Nat) :=
  { DecodeAny := fun p => Except.ok (some p)
    AssignableTo := fun _ _ => true
    Zero := fun _ => Iface.value 0
    StatusOf := fun e => Status.StatusOther e.msg.length
    EncodeAny := fun v => some v }

/-- A score for examples with one method `Ex_get` of no parameters that returns the
value 7 and an error with message `bad`. -/
def sampleScore : String → Option (SysMethod Nat Nat) :=
  fun name =>
    if name = "Ex_get" then
      some { In := []
             Call := fun _ => some [Iface.value 7,
               Iface.error { code := ErrorCode.InvalidStateError, msg := "bad" }] }
    else none

/-- `scoreapi.DataType`: the types an API entry can declare, and any other value. -/
inductive DataType where
  | Integer
  | String
  | Bytes
  | Bool
  | Address
  | List
  | Dict
  | Unknown
  deriving DecidableEq, Repr

/-- What `CheckMethod` can tell about a Go type through `reflect`: the types it compares
with (`*common.HexInt`, `string`, `[]byte`, `bool`, `int`, `int64`), an interface type
together with whether `*common.Address` implements it, another slice, an array, a map, or
anything else. -/
inductive GoType where
  | hexIntPtr
  | string
  | bytes
  | bool
  | int
  | int64
  | iface (addressImplements : Bool)
  | slice
  | array
  | map
  | other
  deriving DecidableEq, Repr

/-- `reflect.TypeOf(&common.Address{}).Implements(t)`: `reflect` panics when `t` is not
an interface type (`none`). -/
def GoType.Implements : GoType → Option Bool
  | GoType.iface b => some b
  | _ => none

/-- `t.Kind()` is `reflect.Slice` or `reflect.Array`; `[]byte` is a slice. -/
def GoType.isSliceOrArray : GoType → Bool
  | GoType.bytes => true
  | GoType.slice => true
  | GoType.array => true
  | _ => false

/-- `t.Kind()` is `reflect.Map`. -/
def GoType.isMap : GoType → Bool
  | GoType.map => true
  | _ => false

/-- An API entry (`scoreapi.Method`): the declared types of inputs and outputs. -/
structure ApiMethod where
  Inputs : List DataType
  Outputs : List DataType
  deriving DecidableEq, Repr

/-- A method as `reflect.TypeOf(obj).Method(i)` describes it: its name, its parameter
types with the receiver first, and its result types. -/
structure GoMethod where
  Name : String
  In : List GoType
  Out : List GoType
  deriving DecidableEq, Repr

/-- A system score as `CheckMethod` sees it: its methods in `reflect` order and the lookup
`GetAPI().GetMethod`. -/
structure SystemScore where
  Methods : List GoMethod
  GetMethod : String → Option ApiMethod

/-- How a call of `CheckMethod` ends: it returns `nil`, it returns an error, or it
panics. -/
inductive CheckResult where
  | ok
  | error (e : GoError)
  | panic
  deriving DecidableEq, Repr

/-- The input switch of `CheckMethod` (lines 112-135): whether `invalid` is set for a
declared type and the Go parameter type; `none` is the panic of `Implements`. -/
def inputInvalid (dt : DataType) (t : GoType) : Option Bool :=
  match dt with
  | DataType.Integer => some (decide (GoType.hexIntPtr ≠ t))
  | DataType.String => some (decide (GoType.string ≠ t))
  | DataType.Bytes => some (decide (GoType.bytes ≠ t))
  | DataType.Bool => some (decide (GoType.bool ≠ t))
  | DataType.Address => (t.Implements).map (fun b => b == false)
  | _ => some true

/-- The output switch of `CheckMethod` (lines 148-179). -/
def outputInvalid (dt : DataType) (t : GoType) : Option Bool :=
  match dt with
  | DataType.Integer => some (decide (GoType.int ≠ t) && decide (GoType.int64 ≠ t))
  | DataType.String => some (decide (GoType.string ≠ t))
  | DataType.Bytes => some (decide (GoType.bytes ≠ t))
  | DataType.Bool => some (decide (GoType.bool ≠ t))
  | DataType.Address => (t.Implements).map (fun b => b == false)
  | DataType.List => some (!t.isSliceOrArray)
  | DataType.Dict => some (!t.isMap)
  | DataType.Unknown => some true

/-- One of the two type loops of `CheckMethod`: the first pair for which `invalid` is set
returns an InvalidStateError, a panic of the switch ends the call. -/
def checkTypes (invalid : DataType → GoType → Option Bool) (msg : String) :
    List (DataType × GoType) → CheckResult
  | [] => CheckResult.ok
  | (dt, t) :: rest =>
    match invalid dt t with
    | none => CheckResult.panic
    | some true => CheckResult.error { code := ErrorCode.InvalidStateError, msg := msg }
    | some false => checkTypes invalid msg rest

/-- The body of the loop of `CheckMethod` for a method with an API entry (lines
104-184): input count, input types, output count, output types. The declared inputs are
compared with the parameters after the receiver, the declared outputs with the leading
results. -/
def checkOne (mi : ApiMethod) (m : GoMethod) : CheckResult :=
  if (mi.Inputs.length : Int) ≠ (m.In.length : Int) - 1 then
    CheckResult.error { code := ErrorCode.InvalidStateError,
                        msg := "Wrong method input. method[%s]\n" }
  else
    match checkTypes inputInvalid "wrong system score signature. method : %s, expected input"
        (mi.Inputs.zip (m.In.drop 1)) with
    | CheckResult.ok =>
      if (mi.Outputs.length : Int) ≠ (m.Out.length : Int) - 1 then
        CheckResult.error { code := ErrorCode.InvalidStateError,
                            msg := "Wrong method output. method[%s]\n" }
      else
        checkTypes outputInvalid "Wrong system score signature. method : %s, expected output"
          (mi.Outputs.zip m.Out)
    | res => res

/-- The loop of `CheckMethod` over the methods: a method without the `Ex_` tag or without
an API entry is passed over, the first method whose check does not pass ends the call. -/
def checkMethods (GetMethod : String → Option ApiMethod) : List GoMethod → CheckResult
  | [] => CheckResult.ok
  | m :: rest =>
    if HasPrefix m.Name FUNC_PREFIX = false then checkMethods GetMethod rest
    else
      match GetMethod (TrimPrefix m.Name FUNC_PREFIX) with
      | none => checkMethods GetMethod rest
      | some mi =>
        match checkOne mi m with
        | CheckResult.ok => checkMethods GetMethod rest
        | res => res

/-- `CheckMethod`. -/
def CheckMethod (obj : SystemScore) : CheckResult :=
  checkMethods obj.GetMethod obj.Methods

/-- A method is checked when it carries the `Ex_` tag and has an API entry. -/
def SystemScore.checked (obj : SystemScore) (m : GoMethod) : Bool :=
  HasPrefix m.Name FUNC_PREFIX && (obj.GetMethod (TrimPrefix m.Name FUNC_PREFIX)).isSome

/-- A score whose only method is `Ex_setOwner(owner string) (int, error)` while its API
declares `setOwner` with one `Address` input and no output. -/
def badOwnerScore : SystemScore :=
  { Methods := [{ Name := "Ex_setOwner", In := [GoType.other, GoType.string],
                  Out := [GoType.int, GoType.iface false] }]
    GetMethod := fun name =>
      if name = "setOwner" then some { Inputs := [DataType.Address], Outputs := [] }
      else none }

/-- A score whose only method is `Ex_getRevision() (int, error)` while its API declares
`getRevision` with no input and no output. -/
def badRevisionScore : SystemScore :=
  { Methods := [{ Name := "Ex_getRevision", In := [GoType.other],
                  Out := [GoType.int, GoType.iface false] }]
    GetMethod := fun name =>
      if name = "getRevision" then some { Inputs := [], Outputs := [] }
      else none }

/-- The exported fields of `genesisV3JSON`, those `json.Unmarshal` can fill. -/
structure genesisFields (A : Type) where
  Accounts : List (accountInfo A)
  Message : String
  Chain : Bytes
  NID : Option Int

/-- `genesisV3.Bytes`: the raw JSON. -/
def genesisV3.Bytes {A : Type} (g : genesisV3 A) : Bytes := g.json.raw

/-- `genesisV3.MarshalJSON`: the raw JSON and a `nil` error. -/
def genesisV3.MarshalJSON {A : Type} (g : genesisV3 A) : Goloop.Bytes × Option GoError :=
  (g.json.raw, none)

/-- `newGenesisV3`: decode the JSON (`json.Unmarshal` is the parameter `Unmarshal`; it
leaves the unexported `raw` and `txHash` unset), fail with IllegalArgumentError when
decoding fails or no account is listed, else keep the bytes as `raw` and compute the
transaction hash, failing with InvalidGenesisError when that fails. -/
def newGenesisV3 {A : Type} (env : HashEnv)
    (Unmarshal : Bytes → Except GoError (genesisFields A)) (js : Bytes) :
    Except GoError (genesisV3 A) :=
  match Unmarshal js with
  | Except.error _ =>
    Except.error { code := ErrorCode.IllegalArgumentError,
                   msg := "Invalid json for genesis(%s)" }
  | Except.ok f =>
    if f.Accounts.length ≠ 0 then
      let genjs : genesisV3JSON A :=
        { Accounts := f.Accounts, Message := f.Message, Chain := f.Chain, NID := f.NID,
          raw := js, txHash := none }
      match (genjs.updateTxHash env).1 with
      | some _ =>
        Except.error { code := ErrorCode.InvalidGenesisError, msg := "FailToMakeTxHash" }
      | none => Except.ok { json := (genjs.updateTxHash env).2, hash := none, nid := 0 }
    else Except.error { code := ErrorCode.IllegalArgumentError, msg := "NoAccounts" }

/-- Call `ID()` `k` times in a row, each time with whatever hashing environment `envs`
supplies: the values returned, and the receiver afterwards. -/
def genesisV3.IDcalls {A : Type} : List HashEnv → genesisV3 A →
    List (Option Goloop.Bytes) × genesisV3 A
  | [], g => ([], g)
  | env :: envs, g =>
    ((g.ID env).1 :: (genesisV3.IDcalls envs (g.ID env).2).1,
      (genesisV3.IDcalls envs (g.ID env).2).2)

/-- A decoder for examples: any input decodes to the two accounts `god` and `treasury`,
except the empty input, which is not JSON. -/
def sampleUnmarshal : Bytes → Except GoError (genesisFields Nat) :=
  fun js =>
    if js = [] then Except.error { code := ErrorCode.UnknownError, msg := "EOF" }
    else Except.ok
      { Accounts :=
          [ { Name := "god", Address := 1, Balance := some 100, Score := none },
            { Name := "treasury", Address := 2, Balance := some 5, Score := none } ]
        Message := "", Chain := [], NID := none }

/-! ### The test helper `waitEvent` -/

/-- Go's `m[k]` on a map kept as an association list (`none`: no such key). -/
def mapGet {K V : Type} [DecidableEq K] : List (K × V) → K → Option V
  | [], _ => none
  | (k1, v1) :: rest, k => if k1 = k then some v1 else mapGet rest k

/-- Go's `m[k] = v`: replace the entry of `k`, or add one. -/
def mapSet {K V : Type} [DecidableEq K] : List (K × V) → K → V → List (K × V)
  | [], k, v => [(k, v)]
  | (k1, v1) :: rest, k, v =>
    if k1 = k then (k, v) :: rest else (k1, v1) :: mapSet rest k v

/-- The keys of a map. -/
def mapKeys {K V : Type} (m : List (K × V)) : List K := m.map Prod.fst

/-- The inner `map[string]int`: reactor name to number of reports. -/
abbrev NameMap := List (String × Nat)

/-- The `map[string]map[string]int` of `waitEvent`; a key is `PeerID.String()`, which names
the peer, so the peer itself stands for it. A key always holds a non-nil inner map. -/
abbrev EventMap := List (PeerID × NameMap)

/-- A context the test reactors put on the channel: `onEvent` sets `event`, `name` and
`peer`; `OnReceive`, `OnFailure` and `OnJoin` set no `event`. -/
inductive TestCtx where
  | other : TestCtx
  | event (evt : String) (name : String) (peer : PeerID) : TestCtx
  deriving DecidableEq, Repr

/-- How a call of `waitEvent` ends: `(m, nil)`, `(m, timeout error)`, or a panic. -/
inductive WaitOutcome where
  | nil (m : EventMap) : WaitOutcome
  | timeout (m : EventMap) : WaitOutcome
  | panic : WaitOutcome
  deriving DecidableEq, Repr

/-- The map `waitEvent` starts from: an empty inner map for every expected peer. -/
def waitEvent.init (peers : List PeerID) : EventMap :=
  peers.foldl (fun m p => mapSet m p []) []

/-- The `done` flag: no inner map has fewer than `n` entries. -/
def waitEvent.done (n : Int) (m : EventMap) : Bool :=
  m.all (fun e => decide (¬ ((e.2.length : Int) < n)))

/-- The two statements `if _, ok := rm[rname]; !ok { rm[rname] = 0 }` and `rm[rname]++`
on a non-nil inner map. -/
def countName (rm : NameMap) (rname : String) : NameMap :=
  let rm1 := match mapGet rm rname with
    | some _ => rm
    | none => mapSet rm rname 0
  mapSet rm1 rname ((mapGet rm1 rname).getD 0 + 1)

/-- The `for`/`select` loop of `waitEvent` over the contexts received before the timer
fires. A context without `event` and an event of another kind are skipped. For an event
of the awaited kind, `rm := m[rpeer.String()]` is nil when the peer has no entry, and
since a nil map holds no key the assignment `rm[rname] = 0` then panics; otherwise the
name is entered and counted and the `done` flag is computed. -/
def waitEvent.loop (n : Int) (evt : String) : EventMap → List TestCtx → WaitOutcome
  | m, [] => WaitOutcome.timeout m
  | m, TestCtx.other :: rest => waitEvent.loop n evt m rest
  | m, TestCtx.event revt rname rpeer :: rest =>
    if revt = evt then
      match mapGet m rpeer with
      | none => WaitOutcome.panic
      | some rm =>
        let m1 := mapSet m rpeer (countName rm rname)
        if waitEvent.done n m1 then WaitOutcome.nil m1 else waitEvent.loop n evt m1 rest
    else waitEvent.loop n evt m rest

/-- `waitEvent(ch, n, d, evt, peers...)`, where `stream` lists what the channel delivers
before the timer of duration `d` fires. -/
def waitEvent (n : Int) (evt : String) (peers : List PeerID) (stream : List TestCtx) :
    WaitOutcome :=
  waitEvent.loop n evt (waitEvent.init peers) stream

/-- Reactor names under which `stream` reports peer `p` with an event of kind `evt`
(used to state properties; not part of the program). -/
def reporters (evt : String) (p : PeerID) : List TestCtx → List String
  | [] => []
  | TestCtx.other :: rest => reporters evt p rest
  | TestCtx.event revt rname rpeer :: rest =>
    if revt = evt ∧ rpeer = p then rname :: reporters evt p rest else reporters evt p rest

/-- Every event of kind `evt` in `stream` is about a peer in `peers` (used to state
properties; not part of the program). -/
def expectedOnly (evt : String) (peers : List PeerID) : List TestCtx → Prop
  | [] => True
  | TestCtx.other :: rest => expectedOnly evt peers rest
  | TestCtx.event revt _ rpeer :: rest =>
    (revt = evt → rpeer ∈ peers) ∧ expectedOnly evt peers rest

/-! ## Theorems -/

section QueueProofs
variable {α : Type}

theorem rep_newTestQueue (n : Nat) : (newTestQueue n : queue α).Rep [] := by
  refine ⟨?_, ?_, ?_⟩
  · simp [queue.WF, newTestQueue]
  · simp [queue.held, newTestQueue]
  · intro i hi; simp at hi

theorem rep_held_le {q : queue α} {l : List α} (h : q.Rep l) : l.length ≤ q.size := by
  obtain ⟨⟨h1, h2, h3, h4⟩, hh, -⟩ := h
  unfold queue.held at hh
  split at hh <;> omega

theorem rep_push_full {q : queue α} {l : List α} (h : q.Rep l) (hfull : l.length = q.size)
    (x : α) : q.Push x = (some NetError.QueueOverflow, q) := by
  obtain ⟨⟨h1, h2, h3, h4⟩, hh, -⟩ := h
  have : q.r = q.next q.w := by
    unfold queue.held at hh
    unfold queue.next
    split at hh <;> split <;> omega
  simp [queue.Push, this.symm]

theorem rep_push_room {q : queue α} {l : List α} (h : q.Rep l) (hroom : l.length < q.size)
    (x : α) : (q.Push x).1 = none ∧ (q.Push x).2.Rep (l ++ [x]) := by
  obtain ⟨⟨h1, h2, h3, h4⟩, hh, hs⟩ := h
  have hne : q.r ≠ q.next q.w := by
    unfold queue.held at hh
    unfold queue.next
    split at hh <;> split <;> omega
  have hP : q.Push x = (none, { q with buf := q.buf.set q.w (some x), w := q.next q.w }) := by
    simp [queue.Push, hne]
  rw [hP]
  refine ⟨rfl, ⟨?_, ?_, ?_, ?_⟩, ?_, ?_⟩
  · exact h1
  · simpa using h2
  · exact h3
  · show q.next q.w < q.len
    unfold queue.next; split <;> omega
  · show queue.held _ = _
    simp only [queue.held, List.length_append, List.length_singleton]
    unfold queue.held at hh
    unfold queue.next
    split at hh <;> split <;> split <;> omega
  · intro i hi
    simp only [List.length_append, List.length_singleton] at hi
    show (q.buf.set q.w (some x))[q.slot i]? = _
    by_cases hil : i < l.length
    · have hsl : q.w ≠ q.slot i := by
        unfold queue.held at hh
        unfold queue.slot
        split at hh <;> split <;> omega
      rw [List.getElem?_set_ne hsl, hs i hil, List.getElem?_append_left hil]
    · have hi' : i = l.length := by omega
      have hsl : q.slot i = q.w := by
        unfold queue.held at hh
        unfold queue.slot
        split at hh <;> split <;> omega
      rw [hsl, List.getElem?_set_self (by omega), hi']
      simp

theorem rep_pop_nil {q : queue α} (h : q.Rep []) : q.Pop = (none, q) := by
  obtain ⟨⟨h1, h2, h3, h4⟩, hh, -⟩ := h
  have : q.r = q.w := by
    unfold queue.held at hh
    simp at hh
    split at hh <;> omega
  simp [queue.Pop, this]

theorem rep_pop_cons {q : queue α} {x : α} {l : List α} (h : q.Rep (x :: l)) :
    (q.Pop).1 = some x ∧ (q.Pop).2.Rep l := by
  obtain ⟨⟨h1, h2, h3, h4⟩, hh, hs⟩ := h
  simp only [List.length_cons] at hh
  have hne : q.r ≠ q.w := by
    unfold queue.held at hh
    split at hh <;> omega
  have hP : q.Pop = (q.buf.getD q.r none,
      { q with buf := q.buf.set q.r none, r := q.next q.r }) := by
    simp [queue.Pop, hne]
  rw [hP]
  refine ⟨?_, ⟨?_, ?_, ?_, ?_⟩, ?_, ?_⟩
  · have h0 := hs 0 (by simp)
    have hs0 : q.slot 0 = q.r := by unfold queue.slot; split <;> omega
    rw [hs0] at h0
    simp [List.getD_eq_getElem?_getD, h0]
  · exact h1
  · simpa using h2
  · show q.next q.r < q.len
    unfold queue.next; split <;> omega
  · exact h4
  · show queue.held _ = _
    simp only [queue.held]
    unfold queue.held at hh
    unfold queue.next
    split at hh <;> split <;> split <;> omega
  · intro i hi
    have hsi := hs (i + 1) (by simp; omega)
    have hslot : queue.slot { q with buf := q.buf.set q.r none, r := q.next q.r } i
        = q.slot (i + 1) := by
      simp only [queue.slot]
      unfold queue.next
      unfold queue.held at hh
      split at hh <;> split <;> split <;> split <;> omega
    rw [hslot]
    show (q.buf.set q.r none)[q.slot (i + 1)]? = _
    have hsl : q.r ≠ q.slot (i + 1) := by
      unfold queue.held at hh
      unfold queue.slot
      split at hh <;> split <;> omega
    rw [List.getElem?_set_ne hsl, hsi]
    simp

theorem rep_apply {t : QueueRun α} {l : List α} (h : t.q.Rep l)
    (hl : t.popped ++ l = t.pushed) (op : QueueOp α) :
    ∃ l', (t.apply op).q.Rep l' ∧ (t.apply op).popped ++ l' = (t.apply op).pushed := by
  cases op with
  | push ctx =>
    rcases Nat.lt_or_ge l.length t.q.size with hroom | hge
    · obtain ⟨h1, h2⟩ := rep_push_room h hroom ctx
      refine ⟨l ++ [ctx], ?_, ?_⟩
      · simp only [QueueRun.apply]
        split
        · next q' he => rw [he] at h2; exact h2
        · next e q' he => rw [he] at h1; simp at h1
      · simp only [QueueRun.apply]
        split
        · simp [← hl]
        · next e q' he => rw [he] at h1; simp at h1
    · have hfull : l.length = t.q.size := Nat.le_antisymm (rep_held_le h) hge
      have hP := rep_push_full h hfull ctx
      refine ⟨l, ?_, ?_⟩
      · simp only [QueueRun.apply, hP]; exact h
      · simp only [QueueRun.apply, hP]; exact hl
  | pop =>
    cases l with
    | nil =>
      have hP := rep_pop_nil h
      refine ⟨[], ?_, ?_⟩
      · simp only [QueueRun.apply, hP]; exact h
      · simp only [QueueRun.apply, hP]; exact hl
    | cons x l =>
      obtain ⟨h1, h2⟩ := rep_pop_cons h
      refine ⟨l, ?_, ?_⟩
      · simp only [QueueRun.apply]
        split
        · next c q' he => rw [he] at h2; exact h2
        · next q' he => rw [he] at h1; simp at h1
      · simp only [QueueRun.apply]
        split
        · next c q' he =>
          rw [he] at h1
          simp only [Option.some.injEq] at h1
          subst h1
          simp [← hl]
        · next q' he => rw [he] at h1; simp at h1

theorem rep_foldl (ops : List (QueueOp α)) (t : QueueRun α) (l : List α) (h : t.q.Rep l)
    (hl : t.popped ++ l = t.pushed) :
    ∃ l', (ops.foldl QueueRun.apply t).q.Rep l' ∧
      (ops.foldl QueueRun.apply t).popped ++ l' = (ops.foldl QueueRun.apply t).pushed := by
  induction ops generalizing t l with
  | nil => exact ⟨l, h, hl⟩
  | cons op ops ih =>
    obtain ⟨l', h', hl'⟩ := rep_apply h hl op
    exact ih (t.apply op) l' h' hl'

theorem rep_drain (fuel : Nat) (q : queue α) (l : List α) (h : q.Rep l)
    (hf : l.length ≤ fuel) : q.drain fuel = l := by
  induction fuel generalizing q l with
  | zero =>
    have : l = [] := List.length_eq_zero.mp (Nat.le_zero.mp hf)
    simp [queue.drain, this]
  | succ fuel ih =>
    cases l with
    | nil => simp [queue.drain, rep_pop_nil h]
    | cons x l =>
      obtain ⟨h1, h2⟩ := rep_pop_cons h
      simp only [queue.drain]
      split
      · next c q' he =>
        rw [he] at h1 h2
        simp only [Option.some.injEq] at h1
        subst h1
        rw [ih q' l h2 (by simpa using hf)]
      · next q' he => rw [he] at h1; simp at h1

/-- C1: a push onto a well-formed queue that already holds as many messages as its
capacity returns `QueueOverflow` and leaves buffer and indices as they were (the message is
dropped; `Push` is a total function, so nothing blocks); and every push onto `zeroQueue`
returns `QueueOverflow` and leaves `zeroQueue` as it was. -/
theorem push_full_QueueOverflow (q : queue α) (ctx : α) (hwf : q.WF)
    (hfull : q.held = q.size) :
    q.Push ctx = (some NetError.QueueOverflow, q) ∧
      (zeroQueue : queue α).Push ctx = (some NetError.QueueOverflow, zeroQueue) := by
  obtain ⟨h1, h2, h3, h4⟩ := hwf
  have hr : q.r = q.next q.w := by
    unfold queue.held at hfull
    unfold queue.next
    split at hfull <;> split <;> omega
  constructor
  · simp [queue.Push, hr.symm]
  · simp [queue.Push, queue.next, zeroQueue]

/-- C1 at a concrete input: the capacity-two queue after two pushes refuses a third. -/
theorem push_full_QueueOverflow_witness :
    fullTestQueue.WF ∧ fullTestQueue.held = fullTestQueue.size ∧
      fullTestQueue.Push 30 = (some NetError.QueueOverflow, fullTestQueue) :=
  ⟨by decide, by decide, (push_full_QueueOverflow fullTestQueue 30 (by decide) (by decide)).1⟩

/-- C2: for every capacity `n` and every interleaving of pushes and pops on
`newTestQueue n`, the messages `Pop` has returned, followed by those it returns when the
queue is drained afterwards, are exactly the successfully pushed messages in push order;
so what has been popped at any time is an initial segment of what was pushed. Index
wrap-around is covered: `ops` may be arbitrarily longer than the buffer. -/
theorem pop_fifo (n : Nat) (ops : List (QueueOp α)) :
    (runOps (newTestQueue n) ops).popped ++
        (runOps (newTestQueue n) ops).q.drain (runOps (newTestQueue n) ops).q.len
      = (runOps (newTestQueue n) ops).pushed ∧
    (runOps (newTestQueue n) ops).popped <+: (runOps (newTestQueue n) ops).pushed := by
  obtain ⟨l, hrep, hl⟩ := rep_foldl ops
    { pushed := [], popped := [], q := (newTestQueue n : queue α) } [] (rep_newTestQueue n) rfl
  change (runOps (newTestQueue n) ops).q.Rep l at hrep
  change (runOps (newTestQueue n) ops).popped ++ l = (runOps (newTestQueue n) ops).pushed at hl
  have hle := rep_held_le hrep
  have hlen : l.length ≤ (runOps (newTestQueue n) ops).q.len := by
    have := hrep.1.1
    omega
  constructor
  · rw [rep_drain _ _ l hrep hlen]; exact hl
  · exact ⟨l, hl⟩

end QueueProofs

section GenesisProofs
variable {A : Type}

theorem foldl_names_isSome (accs : List (accountInfo A)) (m : String → Option (accountInfo A))
    (k : String) :
    ((accs.foldl (fun m ac => fun k => if k = ac.Name then some ac else m k) m) k).isSome
      = true ↔ (k ∈ accs.map accountInfo.Name ∨ (m k).isSome = true) := by
  induction accs generalizing m with
  | nil => simp
  | cons ac accs ih =>
    simp only [List.foldl_cons, List.map_cons, List.mem_cons]
    rw [ih]
    by_cases hk : k = ac.Name
    · simp [hk]
    · simp [hk]

theorem Verify_eq (g : genesisV3 A) (ts : Int) :
    g.Verify ts =
      if "treasury" ∈ g.names then
        if "god" ∈ g.names then none
        else some { code := ErrorCode.InvalidGenesisError, msg := "NoGodAccount" }
      else some { code := ErrorCode.InvalidGenesisError, msg := "NoTreasuryAccount" } := by
  have h := fun k => foldl_names_isSome g.json.Accounts (fun _ => none) k
  simp only [Option.isSome_none, Bool.false_eq_true, or_false] at h
  have hN : ∀ k, ((g.json.Accounts.foldl
      (fun m ac => fun k => if k = ac.Name then some ac else m k) (fun _ => none)) k).isNone
        = true ↔ k ∉ g.json.Accounts.map accountInfo.Name := by
    intro k
    rw [← h k]
    cases (g.json.Accounts.foldl
      (fun m ac => fun k => if k = ac.Name then some ac else m k) (fun _ => none)) k <;> simp
  unfold genesisV3.Verify genesisV3.names
  simp only [hN]
  by_cases ht : "treasury" ∈ g.json.Accounts.map accountInfo.Name <;>
    by_cases hg : "god" ∈ g.json.Accounts.map accountInfo.Name <;> simp [ht, hg]

/-- C18: `Verify` returns `nil` exactly when some account is named `treasury` and some
account is named `god`; without a `treasury` account it returns InvalidGenesisError
`NoTreasuryAccount` whether or not `god` is there, with `treasury` and without `god` it
returns `NoGodAccount`; the timestamp does not matter, and two genesis transactions whose
account lists carry the same set of names (any order, any duplicates) get the same
answer. -/
theorem Verify_treasury_god (g : genesisV3 A) (ts : Int) :
    (g.Verify ts = none ↔ ("treasury" ∈ g.names ∧ "god" ∈ g.names)) ∧
      ("treasury" ∉ g.names → g.Verify ts =
        some { code := ErrorCode.InvalidGenesisError, msg := "NoTreasuryAccount" }) ∧
      ("treasury" ∈ g.names → "god" ∉ g.names → g.Verify ts =
        some { code := ErrorCode.InvalidGenesisError, msg := "NoGodAccount" }) ∧
      (∀ ts', g.Verify ts' = g.Verify ts) ∧
      (∀ g' : genesisV3 A, (∀ s, s ∈ g'.names ↔ s ∈ g.names) →
        g'.Verify ts = g.Verify ts) := by
  refine ⟨?_, ?_, ?_, ?_, ?_⟩
  · rw [Verify_eq]
    by_cases ht : "treasury" ∈ g.names <;> by_cases hg : "god" ∈ g.names <;> simp [ht, hg]
  · intro ht; rw [Verify_eq]; simp [ht]
  · intro ht hg; rw [Verify_eq]; simp [ht, hg]
  · intro ts'; rw [Verify_eq, Verify_eq]
  · intro g' hn
    rw [Verify_eq, Verify_eq]
    simp only [hn]

theorem nid_bits (b0 b1 b2 : Byte) :
    b2.val ||| (b1.val <<< 8) ||| (b0.val <<< 16) = b0.val * 65536 + b1.val * 256 + b2.val := by
  have h0 := b0.isLt
  have h1 := b1.isLt
  have h2 := b2.isLt
  rw [Nat.shiftLeft_eq, Nat.shiftLeft_eq]
  have e1 : b2.val ||| b1.val * 2 ^ 8 = b1.val * 2 ^ 8 + b2.val := by
    rw [Nat.or_comm, Nat.mul_comm, ← Nat.mul_add_lt_is_or (by omega)]
  rw [e1]
  have e2 : (b1.val * 2 ^ 8 + b2.val) ||| b0.val * 2 ^ 16
      = b0.val * 2 ^ 16 + (b1.val * 2 ^ 8 + b2.val) := by
    rw [Nat.or_comm, Nat.mul_comm b0.val, ← Nat.mul_add_lt_is_or (by omega)]
  rw [e2]
  omega

theorem NIDForGenesisID_eq (b0 b1 b2 : Byte) (rest : Bytes) :
    NIDForGenesisID (b0 :: b1 :: b2 :: rest)
      = some ((b0.val : Int) * 65536 + (b1.val : Int) * 256 + (b2.val : Int)) := by
  simp only [NIDForGenesisID, List.getElem?_cons_succ, List.getElem?_cons_zero]
  rw [nid_bits]
  simp


theorem ID_cached (env : HashEnv) (g : genesisV3 A) (h : Bytes)
    (hid : g.json.txHash = some h) : g.ID env = (some h, g) := by
  simp [genesisV3.ID, genesisV3JSON.updateTxHash, hid]

theorem NID_step (env : HashEnv) (g : genesisV3 A) (h : Bytes) (v : Int)
    (hid : g.json.txHash = some h) (hv : g.netID = some v) (hn : g.nid = 0 ∨ g.nid = v) :
    ∃ g', g.NID env = some (v, g') ∧ g'.json = g.json ∧ g'.nid = v := by
  unfold genesisV3.netID at hv
  unfold genesisV3.NID
  by_cases h0 : g.nid = 0
  · rw [if_pos h0]
    cases hN : g.json.NID with
    | some x =>
      rw [hN] at hv
      simp only [Option.some.injEq] at hv
      subst hv
      exact ⟨_, rfl, rfl, rfl⟩
    | none =>
      rw [hN, hid] at hv
      simp only [Option.getD_some] at hv
      simp only [ID_cached env g h hid, Option.getD_some, hv]
      exact ⟨_, rfl, rfl, rfl⟩
  · rw [if_neg h0]
    rcases hn with hn | hn
    · exact absurd hn h0
    · rw [hn]; exact ⟨g, rfl, rfl, hn⟩

theorem NIDcalls_replicate (env : HashEnv) (k : Nat) (g : genesisV3 A) (h : Bytes) (v : Int)
    (hid : g.json.txHash = some h) (hv : g.netID = some v) (hn : g.nid = 0 ∨ g.nid = v) :
    ∃ g', g.NIDcalls env k = some (List.replicate k v, g') := by
  induction k generalizing g with
  | zero => exact ⟨g, rfl⟩
  | succ k ih =>
    obtain ⟨g1, h1, hj, hn1⟩ := NID_step env g h v hid hv hn
    have hv1 : g1.netID = some v := by
      unfold genesisV3.netID at hv ⊢
      rw [hj]; exact hv
    obtain ⟨g2, h2⟩ := ih g1 (by rw [hj]; exact hid) hv1 (Or.inr hn1)
    refine ⟨g2, ?_⟩
    simp [genesisV3.NIDcalls, h1, h2, List.replicate_succ]

/-- C20: for a genesis transaction as `newGenesisV3` leaves it (`nid` cache zero, the
transaction hash `b0 b1 b2 ...` cached), `NID()` returns the `nid` field of the JSON
when it is present and otherwise `NIDForGenesisID(ID())`, which is
`b0 * 65536 + b1 * 256 + b2`, lies in `[0, 2^24)` and does not read the bytes after the
third; any number of calls in a row return that same value, and `ValidateNetwork(n)` is
true exactly when `n` equals it. -/
theorem NID_value (env : HashEnv) (g : genesisV3 A) (b0 b1 b2 : Byte) (rest : Bytes)
    (hfresh : g.nid = 0) (hid : g.json.txHash = some (b0 :: b1 :: b2 :: rest)) :
    (∀ x, g.json.NID = some x →
      (∀ k, ∃ g', g.NIDcalls env k = some (List.replicate k x, g')) ∧
      (∀ n, ∃ g', g.ValidateNetwork env n = some (decide (x = n), g'))) ∧
    (g.json.NID = none →
      NIDForGenesisID ((g.ID env).1.getD []) =
        some ((b0.val : Int) * 65536 + (b1.val : Int) * 256 + (b2.val : Int)) ∧
      (0 : Int) ≤ (b0.val : Int) * 65536 + (b1.val : Int) * 256 + (b2.val : Int) ∧
      (b0.val : Int) * 65536 + (b1.val : Int) * 256 + (b2.val : Int) < 2 ^ 24 ∧
      (∀ k, ∃ g', g.NIDcalls env k = some
        (List.replicate k ((b0.val : Int) * 65536 + (b1.val : Int) * 256 + (b2.val : Int)), g')) ∧
      (∀ n, ∃ g', g.ValidateNetwork env n = some
        (decide ((b0.val : Int) * 65536 + (b1.val : Int) * 256 + (b2.val : Int) = n), g'))) := by
  have hval : ∀ v, g.netID = some v → ∀ n, ∃ g', g.ValidateNetwork env n
      = some (decide (v = n), g') := by
    intro v hv n
    obtain ⟨g1, h1, -, -⟩ := NID_step env g _ v hid hv (Or.inl hfresh)
    exact ⟨g1, by simp [genesisV3.ValidateNetwork, h1]⟩
  constructor
  · intro x hx
    have hv : g.netID = some x := by simp [genesisV3.netID, hx]
    exact ⟨fun k => NIDcalls_replicate env k g _ x hid hv (Or.inl hfresh), hval x hv⟩
  · intro hx
    have hv : g.netID = some ((b0.val : Int) * 65536 + (b1.val : Int) * 256 + (b2.val : Int)) := by
      simp only [genesisV3.netID, hx, hid, Option.getD_some]
      exact NIDForGenesisID_eq b0 b1 b2 rest
    have h0 := b0.isLt
    have h1 := b1.isLt
    have h2 := b2.isLt
    refine ⟨?_, by omega, by omega, ?_, hval _ hv⟩
    · rw [ID_cached env g _ hid]
      exact NIDForGenesisID_eq b0 b1 b2 rest
    · exact fun k => NIDcalls_replicate env k g _ _ hid hv (Or.inl hfresh)

/-- C20 at a concrete input: the sample genesis has no `nid` field and a hash starting
1, 2, 3, so three calls of `NID()` return 66051 each. -/
theorem NID_value_witness :
    sampleGenesis.nid = 0 ∧ sampleGenesis.json.txHash = some [1, 2, 3, 4] ∧
      ∃ g', sampleGenesis.NIDcalls sampleHashEnv 3 = some ([66051, 66051, 66051], g') :=
  ⟨rfl, rfl,
    ((NID_value sampleHashEnv sampleGenesis 1 2 3 [4] rfl rfl).2 rfl).2.2.2.1 3⟩

end GenesisProofs

section DeployProofs
variable {A K : Type}

theorem deployAccounts_filter (env : DeployEnv A K) (accs : List (accountInfo A))
    (w : World A K) :
    deployAccounts env (accs.filter (fun a => a.Score.isSome)) w = deployAccounts env accs w := by
  induction accs generalizing w with
  | nil => rfl
  | cons acc rest ih =>
    cases hs : acc.Score with
    | none =>
      have hskip : scoreAction env acc = ScoreAction.skip := by simp [scoreAction, hs]
      rw [List.filter_cons_of_neg (by simp [hs])]
      rw [ih]
      simp [deployAccounts, hskip]
    | some score =>
      rw [List.filter_cons_of_pos (by simp [hs])]
      simp only [deployAccounts]
      split
      · exact ih w
      · rfl
      · split
        · rfl
        · exact ih _

theorem deployAccounts_append (env : DeployEnv A K) (pre rest : List (accountInfo A))
    (w : World A K) (hpre : (deployAccounts env pre w).1 = none) :
    deployAccounts env (pre ++ rest) w = deployAccounts env rest (deployAccounts env pre w).2 := by
  induction pre generalizing w with
  | nil => rfl
  | cons acc pre ih =>
    simp only [List.cons_append, deployAccounts] at hpre ⊢
    split
    · next h => rw [h] at hpre; exact ih w hpre
    · next err h => rw [h] at hpre; simp at hpre
    · next hd h =>
      rw [h] at hpre
      simp only at hpre ⊢
      by_cases hst : (env.Call hd w).1 ≠ Status.StatusSuccess
      · rw [if_pos hst] at hpre; simp at hpre
      · simp only [if_neg hst] at hpre ⊢; exact ih _ hpre

theorem deployAccounts_stop (env : DeployEnv A K) (acc : accountInfo A)
    (post : List (accountInfo A)) (w : World A K) (err : GoError)
    (hfail : (deployAccounts env [acc] w).1 = some err) :
    deployAccounts env (acc :: post) w = deployAccounts env [acc] w := by
  simp only [deployAccounts] at hfail ⊢
  split
  · next h => rw [h] at hfail; simp at hfail
  · rfl
  · next hd h =>
    rw [h] at hfail
    simp only at hfail ⊢
    by_cases hst : (env.Call hd w).1 ≠ Status.StatusSuccess
    · simp only [if_pos hst]
    · simp only [if_neg hst] at hfail; simp [deployAccounts] at hfail

theorem deployAccounts_frame (env : DeployEnv A K) (P : World A K → World A K → Prop)
    (hrefl : ∀ w, P w w) (htrans : ∀ a b c, P a b → P b c → P a c)
    (hcall : ∀ h w, P w (env.Call h w).2) (accs : List (accountInfo A)) (w : World A K) :
    P w (deployAccounts env accs w).2 := by
  induction accs generalizing w with
  | nil => exact hrefl w
  | cons acc rest ih =>
    simp only [deployAccounts]
    split
    · exact ih w
    · exact hrefl w
    · next hd _ =>
      by_cases hst : (env.Call hd w).1 ≠ Status.StatusSuccess
      · simp only [if_pos hst]; exact hcall hd w
      · simp only [if_neg hst]; exact htrans _ _ _ (hcall hd w) (ih _)

theorem hasPrefix_ne_empty (s p : String) (hp : p ≠ "") (h : HasPrefix s p = true) :
    s ≠ "" := by
  intro hs
  subst hs
  unfold HasPrefix at h
  have : p.toList = [] := by
    cases hl : p.toList with
    | nil => rfl
    | cons c cs => rw [hl] at h; simp [List.isPrefixOf] at h
  apply hp
  exact String.ext (by simpa using this)

theorem scoreAction_content (env : DeployEnv A K) (acc : accountInfo A)
    (score : preInstalledScores A) (hs : acc.Score = some score) (hc : score.Content ≠ "") :
    scoreAction env acc = ScoreAction.install
      { owner := score.Owner, address := acc.Address, contentType := score.ContentType,
        content := env.hexDecode (TrimPrefix score.Content "0x"), params := score.Params } := by
  unfold scoreAction
  simp only [hs, hc, ne_eq, not_false_eq_true, if_true]
  by_cases hp : HasPrefix score.Content "0x" = true
  · simp [hp]
  · simp [hp, TrimPrefix]

theorem scoreAction_hash (env : DeployEnv A K) (acc : accountInfo A)
    (score : preInstalledScores A) (hs : acc.Score = some score) (hc : score.Content = "")
    (hh : HasPrefix score.ContentID contentIdHash = true) :
    scoreAction env acc =
      match env.GetPreInstalledScore (TrimPrefix score.ContentID contentIdHash) with
      | Except.ok content => ScoreAction.install
          { owner := score.Owner, address := acc.Address,
            contentType := score.ContentType, content := content, params := score.Params }
      | Except.error _ => ScoreAction.fail
          { code := ErrorCode.InvalidGenesisError,
            msg := "Fail to get PreInstalledScore for ID=%s" } := by
  have hne := hasPrefix_ne_empty _ _ (by decide) hh
  unfold scoreAction
  simp only [hs, hc, ne_eq, not_true_eq_false, if_false, hne, not_false_eq_true, if_true, hh]
  cases env.GetPreInstalledScore (TrimPrefix score.ContentID contentIdHash) <;> rfl

theorem scoreAction_cid (env : DeployEnv A K) (acc : accountInfo A)
    (score : preInstalledScores A) (hs : acc.Score = some score) (hc : score.Content = "")
    (hh : HasPrefix score.ContentID contentIdHash = false)
    (hcid : HasPrefix score.ContentID contentIdCid = true) :
    scoreAction env acc = ScoreAction.fail
      { code := ErrorCode.UnsupportedError, msg := "CID prefix is't Unsupported" } := by
  have hne := hasPrefix_ne_empty _ _ (by decide) hcid
  unfold scoreAction
  simp only [hs, hc, ne_eq, not_true_eq_false, if_false, hne, not_false_eq_true, if_true, hh,
    Bool.false_eq_true, hcid]

theorem scoreAction_other (env : DeployEnv A K) (acc : accountInfo A)
    (score : preInstalledScores A) (hs : acc.Score = some score) (hc : score.Content = "")
    (hid : score.ContentID ≠ "")
    (hh : HasPrefix score.ContentID contentIdHash = false)
    (hcid : HasPrefix score.ContentID contentIdCid = false) :
    scoreAction env acc = ScoreAction.fail
      { code := ErrorCode.InvalidGenesisError, msg := "SCORE<%s> Invalid contentId=%q" } := by
  unfold scoreAction
  simp only [hs, hc, ne_eq, not_true_eq_false, if_false, hid, not_false_eq_true, if_true,
    hh, Bool.false_eq_true, hcid]

theorem scoreAction_neither (env : DeployEnv A K) (acc : accountInfo A)
    (score : preInstalledScores A) (hs : acc.Score = some score) (hc : score.Content = "")
    (hid : score.ContentID = "") :
    scoreAction env acc = ScoreAction.fail
      { code := ErrorCode.InvalidGenesisError, msg := "There is no content for score %s" } := by
  unfold scoreAction
  simp only [hs, hc, hid, ne_eq, not_true_eq_false, if_false]

theorem deployPreInstall_after (env : DeployEnv A K) (g : genesisV3 A) (w w1 : World A K)
    (pre : List (accountInfo A))
    (hpre : (g.withAccounts pre).deployPreInstall env w = (none, w1)) :
    ∀ rest, (g.withAccounts (pre ++ rest)).deployPreInstall env w =
      deployAccounts env rest w1 := by
  intro rest
  unfold genesisV3.deployPreInstall at hpre ⊢
  cases hch : (env.deployChainScore w).1 with
  | some e => rw [hch] at hpre; simp at hpre
  | none =>
    rw [hch] at hpre
    simp only [genesisV3.withAccounts] at hpre ⊢
    have h1 : (deployAccounts env pre (env.deployChainScore w).2).1 = none := by
      rw [hpre]
    rw [deployAccounts_append env pre rest _ h1, hpre]

theorem deployAccounts_install (env : DeployEnv A K) (acc : accountInfo A)
    (post : List (accountInfo A)) (w1 : World A K) (h : DeployHandler A)
    (hact : scoreAction env acc = ScoreAction.install h) :
    ((env.Call h w1).1 ≠ Status.StatusSuccess →
      deployAccounts env (acc :: post) w1 =
        (some { code := ErrorCode.InvalidGenesisError,
                msg := "FAIL to install pre-installed score.status : %d, addr : %v\n" },
          (env.Call h w1).2)) ∧
    ((env.Call h w1).1 = Status.StatusSuccess →
      deployAccounts env (acc :: post) w1 = deployAccounts env post (env.Call h w1).2) := by
  constructor
  · intro hst
    simp only [deployAccounts, hact, if_pos hst]
  · intro hst
    have hst1 : ¬ (env.Call h w1).1 ≠ Status.StatusSuccess := fun hne => hne hst
    simp only [deployAccounts, hact, if_neg hst1]

/-- C17: take a genesis whose account list is `pre ++ acc :: post` and on whose accounts
`pre` alone `deployPreInstall` succeeds (so the chain score deployed), leaving the state
`w1`. What `deployPreInstall` then returns is fixed by the score fields of `acc`, in this
order. No score: `acc` is skipped, the result is that of the list without it. A non-empty
content, whatever the content ID: the deploy handler is called on `w1` with the content
hex-decoded after an optional `0x` is stripped; a status other than success returns
InvalidGenesisError with the state the call left and the accounts of `post` untouched,
success leaves the state of the call and the run goes on with `post`. Else a content ID
starting with `hash:`: the rest of the ID is looked up among the pre-installed scores, a
failed lookup returns InvalidGenesisError on `w1`, a found content is installed as above.
Else a content ID starting with `cid:` returns UnsupportedError on `w1`. Else any other
non-empty content ID, and a score with neither field, return InvalidGenesisError on `w1`.
Every failure is returned whatever `post` holds. -/
theorem deployPreInstall_order (env : DeployEnv A K) (g : genesisV3 A) (w w1 : World A K)
    (pre post : List (accountInfo A)) (acc : accountInfo A)
    (hacc : g.json.Accounts = pre ++ acc :: post)
    (hpre : (g.withAccounts pre).deployPreInstall env w = (none, w1)) :
    (acc.Score = none →
      (g.withAccounts (pre ++ [acc])).deployPreInstall env w = (none, w1) ∧
      g.deployPreInstall env w = (g.withAccounts (pre ++ post)).deployPreInstall env w) ∧
    (∀ score, acc.Score = some score → score.Content ≠ "" →
      ((env.Call
          { owner := score.Owner, address := acc.Address, contentType := score.ContentType,
            content := env.hexDecode (TrimPrefix score.Content "0x"),
            params := score.Params } w1).1 ≠ Status.StatusSuccess →
        g.deployPreInstall env w =
          (some { code := ErrorCode.InvalidGenesisError,
                  msg := "FAIL to install pre-installed score.status : %d, addr : %v\n" },
            (env.Call
              { owner := score.Owner, address := acc.Address,
                contentType := score.ContentType,
                content := env.hexDecode (TrimPrefix score.Content "0x"),
                params := score.Params } w1).2)) ∧
      ((env.Call
          { owner := score.Owner, address := acc.Address, contentType := score.ContentType,
            content := env.hexDecode (TrimPrefix score.Content "0x"),
            params := score.Params } w1).1 = Status.StatusSuccess →
        (g.withAccounts (pre ++ [acc])).deployPreInstall env w =
          (none, (env.Call
            { owner := score.Owner, address := acc.Address,
              contentType := score.ContentType,
              content := env.hexDecode (TrimPrefix score.Content "0x"),
              params := score.Params } w1).2) ∧
        g.deployPreInstall env w =
          deployAccounts env post (env.Call
            { owner := score.Owner, address := acc.Address,
              contentType := score.ContentType,
              content := env.hexDecode (TrimPrefix score.Content "0x"),
              params := score.Params } w1).2)) ∧
    (∀ score, acc.Score = some score → score.Content = "" →
      HasPrefix score.ContentID contentIdHash = true →
      (∀ e, env.GetPreInstalledScore (TrimPrefix score.ContentID contentIdHash) =
          Except.error e →
        g.deployPreInstall env w =
          (some { code := ErrorCode.InvalidGenesisError,
                  msg := "Fail to get PreInstalledScore for ID=%s" }, w1)) ∧
      (∀ content, env.GetPreInstalledScore (TrimPrefix score.ContentID contentIdHash) =
          Except.ok content →
        ((env.Call
            { owner := score.Owner, address := acc.Address,
              contentType := score.ContentType, content := content,
              params := score.Params } w1).1 ≠ Status.StatusSuccess →
          g.deployPreInstall env w =
            (some { code := ErrorCode.InvalidGenesisError,
                    msg := "FAIL to install pre-installed score.status : %d, addr : %v\n" },
              (env.Call
                { owner := score.Owner, address := acc.Address,
                  contentType := score.ContentType, content := content,
                  params := score.Params } w1).2)) ∧
        ((env.Call
            { owner := score.Owner, address := acc.Address,
              contentType := score.ContentType, content := content,
              params := score.Params } w1).1 = Status.StatusSuccess →
          (g.withAccounts (pre ++ [acc])).deployPreInstall env w =
            (none, (env.Call
              { owner := score.Owner, address := acc.Address,
                contentType := score.ContentType, content := content,
                params := score.Params } w1).2) ∧
          g.deployPreInstall env w =
            deployAccounts env post (env.Call
              { owner := score.Owner, address := acc.Address,
                contentType := score.ContentType, content := content,
                params := score.Params } w1).2))) ∧
    (∀ score, acc.Score = some score → score.Content = "" →
      HasPrefix score.ContentID contentIdHash = false →
      HasPrefix score.ContentID contentIdCid = true →
      g.deployPreInstall env w =
        (some { code := ErrorCode.UnsupportedError, msg := "CID prefix is't Unsupported" },
          w1)) ∧
    (∀ score, acc.Score = some score → score.Content = "" → score.ContentID ≠ "" →
      HasPrefix score.ContentID contentIdHash = false →
      HasPrefix score.ContentID contentIdCid = false →
      g.deployPreInstall env w =
        (some { code := ErrorCode.InvalidGenesisError,
                msg := "SCORE<%s> Invalid contentId=%q" }, w1)) ∧
    (∀ score, acc.Score = some score → score.Content = "" → score.ContentID = "" →
      g.deployPreInstall env w =
        (some { code := ErrorCode.InvalidGenesisError,
                msg := "There is no content for score %s" }, w1)) := by
  have hafter := deployPreInstall_after env g w w1 pre hpre
  have hg : g.deployPreInstall env w = deployAccounts env (acc :: post) w1 := by
    have h := hafter (acc :: post)
    have hgw : g.withAccounts (pre ++ acc :: post) = g := by
      simp only [genesisV3.withAccounts, ← hacc]
    rw [hgw] at h
    exact h
  have hone := hafter [acc]
  refine ⟨?_, ?_, ?_, ?_, ?_, ?_⟩
  · intro hs
    have hskip : scoreAction env acc = ScoreAction.skip := by simp [scoreAction, hs]
    constructor
    · rw [hone]
      simp only [deployAccounts, hskip]
    · rw [hg, hafter post]
      simp only [deployAccounts, hskip]
  · intro score hs hc
    have hact := scoreAction_content env acc score hs hc
    constructor
    · intro hst
      rw [hg]
      exact (deployAccounts_install env acc post w1 _ hact).1 hst
    · intro hst
      constructor
      · rw [hone, (deployAccounts_install env acc [] w1 _ hact).2 hst]
        rfl
      · rw [hg]
        exact (deployAccounts_install env acc post w1 _ hact).2 hst
  · intro score hs hc hh
    have hact := scoreAction_hash env acc score hs hc hh
    constructor
    · intro e he
      rw [he] at hact
      rw [hg]
      simp only [deployAccounts, hact]
    · intro content hok
      rw [hok] at hact
      constructor
      · intro hst
        rw [hg]
        exact (deployAccounts_install env acc post w1 _ hact).1 hst
      · intro hst
        constructor
        · rw [hone, (deployAccounts_install env acc [] w1 _ hact).2 hst]
          rfl
        · rw [hg]
          exact (deployAccounts_install env acc post w1 _ hact).2 hst
  · intro score hs hc hh hcid
    rw [hg]
    simp only [deployAccounts, scoreAction_cid env acc score hs hc hh hcid]
  · intro score hs hc hid hh hcid
    rw [hg]
    simp only [deployAccounts, scoreAction_other env acc score hs hc hid hh hcid]
  · intro score hs hc hid
    rw [hg]
    simp only [deployAccounts, scoreAction_neither env acc score hs hc hid]

/-- C17 at concrete inputs. With the recording environment, the second account of the
genesis, which has content `0x00` and a `cid:` content ID, is installed from its content
(the state records the call at address 2), and the run goes on to the third account, whose
`cid:` content ID fails with UnsupportedError before anything is installed for it. -/
theorem deployPreInstall_order_witness :
    contentGenesis.json.Accounts =
        [{ Name := "god", Address := 1, Balance := some 100, Score := none }] ++
          { Name := "a", Address := 2, Balance := none,
            Score := some { Owner := none, ContentType := "application/zip",
                            ContentID := "cid:xyz", Content := "0x00", Params := none } } ::
          [{ Name := "b", Address := 3, Balance := none,
             Score := some { Owner := none, ContentType := "application/zip",
                             ContentID := "cid:xyz", Content := "", Params := none } }] ∧
      (contentGenesis.withAccounts
          [{ Name := "god", Address := 1, Balance := some 100, Score := none }]).deployPreInstall
        recordingDeployEnv emptyWorld = (none, emptyWorld) ∧
      contentGenesis.deployPreInstall recordingDeployEnv emptyWorld =
        deployAccounts recordingDeployEnv
          [{ Name := "b", Address := 3, Balance := none,
             Score := some { Owner := none, ContentType := "application/zip",
                             ContentID := "cid:xyz", Content := "", Params := none } }]
          (recordingDeployEnv.Call
            { owner := none, address := 2, contentType := "application/zip",
              content := recordingDeployEnv.hexDecode (TrimPrefix "0x00" "0x"),
              params := none } emptyWorld).2 ∧
      (contentGenesis.deployPreInstall recordingDeployEnv emptyWorld).1 =
        some { code := ErrorCode.UnsupportedError, msg := "CID prefix is't Unsupported" } ∧
      (contentGenesis.deployPreInstall recordingDeployEnv emptyWorld).2.balance 2 = 1 ∧
      (contentGenesis.deployPreInstall recordingDeployEnv emptyWorld).2.balance 3 = 0 :=
  ⟨rfl, rfl,
    (((deployPreInstall_order recordingDeployEnv contentGenesis emptyWorld emptyWorld
      [{ Name := "god", Address := 1, Balance := some 100, Score := none }]
      [{ Name := "b", Address := 3, Balance := none,
         Score := some { Owner := none, ContentType := "application/zip",
                         ContentID := "cid:xyz", Content := "", Params := none } }]
      { Name := "a", Address := 2, Balance := none,
        Score := some { Owner := none, ContentType := "application/zip",
                        ContentID := "cid:xyz", Content := "0x00", Params := none } }
      rfl rfl).2.1
      { Owner := none, ContentType := "application/zip",
        ContentID := "cid:xyz", Content := "0x00", Params := none } rfl (by decide)).2
      rfl).2, rfl, by decide, by decide⟩

end DeployProofs

section ExecuteProofs
variable {A K : Type} [DecidableEq K]

theorem executeAccounts_append (env : DeployEnv A K) (pre rest : List (accountInfo A))
    (s : World A K × Int) :
    executeAccounts env (pre ++ rest) s = executeAccounts env rest (executeAccounts env pre s) := by
  induction pre generalizing s with
  | nil => rfl
  | cons acc pre ih =>
    obtain ⟨w, t⟩ := s
    simp only [List.cons_append, executeAccounts]
    cases acc.Balance with
    | none => exact ih _
    | some b => exact ih _

theorem executeAccounts_total (env : DeployEnv A K) (accs : List (accountInfo A))
    (w : World A K) (t : Int) :
    (executeAccounts env accs (w, t)).2 = t + (accs.filterMap accountInfo.Balance).sum := by
  induction accs generalizing w t with
  | nil => simp [executeAccounts]
  | cons acc rest ih =>
    simp only [executeAccounts]
    cases hb : acc.Balance with
    | none => simp [List.filterMap_cons, hb, ih]
    | some b => simp [List.filterMap_cons, hb, ih]; omega

theorem executeAccounts_filter (env : DeployEnv A K) (accs : List (accountInfo A))
    (s : World A K × Int) :
    executeAccounts env (accs.filter (fun a => a.Balance.isSome)) s
      = executeAccounts env accs s := by
  induction accs generalizing s with
  | nil => rfl
  | cons acc rest ih =>
    obtain ⟨w, t⟩ := s
    cases hb : acc.Balance with
    | none =>
      rw [List.filter_cons_of_neg (by simp [hb])]
      simp only [executeAccounts, hb]
      exact ih _
    | some b =>
      rw [List.filter_cons_of_pos (by simp [hb])]
      simp only [executeAccounts, hb]
      exact ih _

theorem executeAccounts_untouched (env : DeployEnv A K) (accs : List (accountInfo A))
    (w : World A K) (t : Int) (k : K)
    (hk : ∀ a ∈ accs, a.Balance.isSome = true → env.ID a.Address ≠ k) :
    (executeAccounts env accs (w, t)).1.balance k = w.balance k := by
  induction accs generalizing w t with
  | nil => rfl
  | cons acc rest ih =>
    simp only [executeAccounts]
    have hrest : ∀ a ∈ rest, a.Balance.isSome = true → env.ID a.Address ≠ k :=
      fun a ha => hk a (List.mem_cons_of_mem _ ha)
    cases hb : acc.Balance with
    | none => exact ih w t hrest
    | some b =>
      simp only
      rw [ih _ _ hrest]
      have := hk acc (List.mem_cons_self _ _) (by simp [hb])
      simp [Ne.symm this]

theorem executeAccounts_last (env : DeployEnv A K) (pre post : List (accountInfo A))
    (acc : accountInfo A) (b : Int) (w : World A K) (t : Int) (hb : acc.Balance = some b)
    (hpost : ∀ a ∈ post, a.Balance.isSome = true → env.ID a.Address ≠ env.ID acc.Address) :
    (executeAccounts env (pre ++ acc :: post) (w, t)).1.balance (env.ID acc.Address) = b := by
  rw [executeAccounts_append]
  generalize executeAccounts env pre (w, t) = s
  obtain ⟨w1, t1⟩ := s
  simp only [executeAccounts, hb]
  rw [executeAccounts_untouched env post _ _ _ hpost]
  simp

theorem executeAccounts_sum (env : DeployEnv A K) (accs : List (accountInfo A))
    (w : World A K) (t : Int)
    (hnd : ((accs.filter (fun a => a.Balance.isSome)).map
      (fun a => env.ID a.Address)).Nodup) :
    ((accs.filter (fun a => a.Balance.isSome)).map
        (fun a => (executeAccounts env accs (w, t)).1.balance (env.ID a.Address))).sum
      = (accs.filterMap accountInfo.Balance).sum := by
  induction accs generalizing w t with
  | nil => simp
  | cons acc rest ih =>
    cases hb : acc.Balance with
    | none =>
      rw [List.filter_cons_of_neg (by simp [hb])] at hnd ⊢
      simp only [executeAccounts, hb, List.filterMap_cons]
      exact ih w t hnd
    | some b =>
      rw [List.filter_cons_of_pos (by simp [hb])] at hnd ⊢
      simp only [List.map_cons, List.nodup_cons, List.mem_map, List.mem_filter] at hnd
      obtain ⟨hnot, hnd'⟩ := hnd
      have hpost : ∀ a ∈ rest, a.Balance.isSome = true →
          env.ID a.Address ≠ env.ID acc.Address := by
        intro a ha hab heq
        exact hnot ⟨a, ⟨ha, hab⟩, heq⟩
      simp only [List.map_cons, List.sum_cons, List.filterMap_cons, hb]
      have h1 := executeAccounts_last env [] rest acc b w t hb hpost
      simp only [List.nil_append] at h1
      rw [h1]
      simp only [executeAccounts, hb]
      rw [ih _ _ hnd']

/-- C19 fails as stated: the two funded accounts of `twinGenesis` have distinct
addresses, an externally owned account and a contract with the same body, and so one
account ID. `Execute` succeeds and stores total supply 15, but the one account state it
set holds 5: the first account's balance is not its `Balance` 10, and the balances set
sum to 5. -/
theorem Execute_distinct_addresses_fails :
    (twinGenesis.funded.map accountInfo.Address).Nodup ∧
      (twinGenesis.Execute sampleHashEnv flagDeployEnv emptyWorld).map
        (fun p => (p.1.toBool, p.2.vars flagDeployEnv.VarTotalSupply,
          p.2.balance (flagDeployEnv.ID (false, 7)),
          (((twinGenesis.funded.map (fun a => flagDeployEnv.ID a.Address)).dedup).map
            p.2.balance).sum))
        = some (true, some (VarValue.int 15), 5, 5) := by
  decide

/-- C19 as amended: after a successful `Execute`, the state it hands to
`deployPreInstall` stores as total supply the sum of the `Balance` fields of the accounts
whose `Balance` is not `nil`; each such account's `Balance` is the balance of the account
state with its address ID unless a later funded account has the same ID; account states
whose ID no funded account has keep their balance; accounts with a `nil` balance leave no
trace (the writes are those of the funded accounts alone); when the funded accounts have
pairwise distinct address IDs the balances set sum to the stored total supply; and all
this still holds of the final state when deploying the chain score and the pre-installed
scores leaves balances and the total supply variable alone. -/
theorem Execute_total_supply (henv : HashEnv) (env : DeployEnv A K) (g : genesisV3 A)
    (w w2 : World A K) (r : Receipt)
    (hok : g.Execute henv env w = some (Except.ok r, w2)) :
    ∃ nid,
      r.status = Status.StatusSuccess ∧
      g.deployPreInstall env (genesisState env g w nid) = (none, w2) ∧
      (genesisState env g w nid).vars env.VarTotalSupply =
        some (VarValue.int (g.json.Accounts.filterMap accountInfo.Balance).sum) ∧
      (∀ pre acc post b, g.json.Accounts = pre ++ acc :: post → acc.Balance = some b →
        (∀ a ∈ post, a.Balance.isSome = true → env.ID a.Address ≠ env.ID acc.Address) →
        (genesisState env g w nid).balance (env.ID acc.Address) = b) ∧
      (∀ k, (∀ a ∈ g.json.Accounts, a.Balance.isSome = true → env.ID a.Address ≠ k) →
        (genesisState env g w nid).balance k = w.balance k) ∧
      executeAccounts env g.funded (w, 0) = executeAccounts env g.json.Accounts (w, 0) ∧
      ((g.funded.map (fun a => env.ID a.Address)).Nodup →
        (g.funded.map (fun a => (genesisState env g w nid).balance (env.ID a.Address))).sum
          = (g.json.Accounts.filterMap accountInfo.Balance).sum) ∧
      ((∀ w', (env.deployChainScore w').2.balance = w'.balance ∧
          (env.deployChainScore w').2.vars env.VarTotalSupply = w'.vars env.VarTotalSupply) →
        (∀ h w', (env.Call h w').2.balance = w'.balance ∧
          (env.Call h w').2.vars env.VarTotalSupply = w'.vars env.VarTotalSupply) →
        w2.balance = (genesisState env g w nid).balance ∧
          w2.vars env.VarTotalSupply = (genesisState env g w nid).vars env.VarTotalSupply) := by
  unfold genesisV3.Execute at hok
  cases hnid : g.NID henv with
  | none => rw [hnid] at hok; simp at hok
  | some p =>
    obtain ⟨nid, g1⟩ := p
    rw [hnid] at hok
    simp only at hok
    cases hts : env.totalSupplySetError
        (executeAccounts env g.json.Accounts (w, 0)).2 with
    | some err => rw [hts] at hok; simp at hok
    | none =>
      rw [hts] at hok
      simp only at hok
      cases hdep : g.deployPreInstall env (genesisState env g w nid) with
      | mk e w3 =>
        rw [hdep] at hok
        cases e with
        | some err => simp at hok
        | none =>
          simp only [Option.some.injEq, Prod.mk.injEq, Except.ok.injEq] at hok
          obtain ⟨hr, hw⟩ := hok
          subst hw
          refine ⟨nid, by rw [← hr], hdep, ?_, ?_, ?_, ?_, ?_, ?_⟩
          · simp [genesisState, executeAccounts_total]
          · intro pre acc post b hacc hb hpost
            simp only [genesisState]
            rw [hacc]
            exact executeAccounts_last env pre post acc b w 0 hb hpost
          · intro k hk
            simp only [genesisState]
            exact executeAccounts_untouched env _ w 0 k hk
          · exact executeAccounts_filter env _ _
          · intro hnd
            simp only [genesisState]
            exact executeAccounts_sum env _ w 0 hnd
          · intro hchain hcall
            have hacc := deployAccounts_frame env
              (fun a b => b.balance = a.balance ∧
                b.vars env.VarTotalSupply = a.vars env.VarTotalSupply)
              (fun _ => ⟨rfl, rfl⟩)
              (fun a b c hab hbc => ⟨hbc.1.trans hab.1, hbc.2.trans hab.2⟩)
              (fun h w' => hcall h w') g.json.Accounts
              (env.deployChainScore (genesisState env g w nid)).2
            have hc := hchain (genesisState env g w nid)
            unfold genesisV3.deployPreInstall at hdep
            cases hcs : (env.deployChainScore (genesisState env g w nid)).1 with
            | some err => rw [hcs] at hdep; simp at hdep
            | none =>
              rw [hcs] at hdep
              simp only at hdep
              rw [hdep] at hacc
              exact ⟨hacc.1.trans hc.1, hacc.2.trans hc.2⟩

/-- C19 amended at a concrete input: executing the sample genesis (balances 100 and 5)
stores total supply 105. -/
theorem Execute_total_supply_witness :
    ∃ nid, (genesisState sampleDeployEnv sampleGenesis emptyWorld nid).vars "total_supply"
      = some (VarValue.int 105) := by
  obtain ⟨nid, -, -, h, -⟩ := Execute_total_supply sampleHashEnv sampleDeployEnv sampleGenesis
    emptyWorld (genesisState sampleDeployEnv sampleGenesis emptyWorld 66051)
    { status := Status.StatusSuccess } rfl
  exact ⟨nid, h⟩

end ExecuteProofs

section InvokeProofs
variable {V T P O : Type}

theorem resultLoop_cons_ne (env : InvokeEnv V T P O) (len i : Nat) (v : Iface V)
    (vs : List (Iface V)) (status : Status) (output : Iface V) (hne : ¬ (i + 1 = len)) :
    env.resultLoop len i (v :: vs) (status, output)
      = env.resultLoop len (i + 1) vs (status, v) := by
  simp only [InvokeEnv.resultLoop, if_neg hne]

theorem resultLoop_eq (env : InvokeEnv V T P O) (len : Nat) (vs : List (Iface V)) (i : Nat)
    (st : Status × Iface V) (hlen : i + vs.length = len) :
    env.resultLoop len i vs st =
      (match vs.getLast? with
        | none => st.1
        | some Iface.nil => st.1
        | some (Iface.error e) => env.StatusOf e
        | some (Iface.value _) => Status.StatusSystemError,
       (vs.dropLast.getLast?).getD st.2) := by
  induction vs generalizing i st with
  | nil => simp [InvokeEnv.resultLoop]
  | cons v vs ih =>
    obtain ⟨status, output⟩ := st
    cases vs with
    | nil =>
      simp only [List.length_singleton] at hlen
      cases v <;> simp [InvokeEnv.resultLoop, hlen]
    | cons v2 vs2 =>
      have hne : ¬ (i + 1 = len) := by
        simp only [List.length_cons] at hlen; omega
      have hlen' : (i + 1) + (v2 :: vs2).length = len := by
        simp only [List.length_cons] at hlen ⊢; omega
      rw [resultLoop_cons_ne env len i v (v2 :: vs2) status output hne,
        ih (i + 1) (status, v) hlen']
      simp only [List.getLast?_cons_cons, List.dropLast_cons₂]
      congr 1
      cases vs2 with
      | nil => simp
      | cons v3 vs3 =>
        simp only [List.dropLast_cons₂]
        rw [List.getLast?_eq_getLast _ (List.cons_ne_nil _ _)]
        rfl

/-- C15: when `Invoke` gets as far as calling the method and the call returns the values
`r` without a panic, the status is decided by the last value alone (success for `nil`,
`StatusOf` of a non-nil error, system error for a non-nil value that is no error), the
result is the encoding of the value just before the last (of `nil` when there is none),
the steps are zero, and two calls whose returned lists end in the same value get the same
status whatever comes earlier. -/
theorem Invoke_status_result (env : InvokeEnv V T P O)
    (score : String → Option (SysMethod V T)) (method : String) (paramObj : P)
    (m : SysMethod V T) (params objects r : List (Iface V))
    (hm : score (FUNC_PREFIX ++ method) = some m)
    (hdec : env.DecodeAny paramObj = Except.ok (some params))
    (hnum : params.length = m.In.length)
    (hobj : env.objects params m.In = some objects)
    (hcall : m.Call objects = some r) :
    Invoke env score method paramObj =
        (env.lastStatus r, env.EncodeAny (beforeLast r), 0) ∧
      (r.getLast? = none ∨ r.getLast? = some Iface.nil →
        (Invoke env score method paramObj).1 = Status.StatusSuccess) ∧
      (∀ e, r.getLast? = some (Iface.error e) →
        (Invoke env score method paramObj).1 = env.StatusOf e) ∧
      (∀ v, r.getLast? = some (Iface.value v) →
        (Invoke env score method paramObj).1 = Status.StatusSystemError) ∧
      (∀ r' : List (Iface V), r'.getLast? = r.getLast? →
        env.lastStatus r' = env.lastStatus r) := by
  have hI : Invoke env score method paramObj =
      (env.lastStatus r, env.EncodeAny (beforeLast r), 0) := by
    unfold Invoke
    simp only [hm, hdec, hnum, ne_eq, not_true_eq_false, if_false, hobj, hcall]
    rw [resultLoop_eq env r.length r 0 _ (by simp)]
    rfl
  refine ⟨hI, ?_, ?_, ?_, ?_⟩
  · intro h
    rw [hI]
    rcases h with h | h <;> simp [InvokeEnv.lastStatus, h]
  · intro e h; rw [hI]; simp [InvokeEnv.lastStatus, h]
  · intro v h; rw [hI]; simp [InvokeEnv.lastStatus, h]
  · intro r' h; simp [InvokeEnv.lastStatus, h]

/-- C15 at a concrete input: the sample method returns 7 and an error, so the status is
the error's and the result encodes 7. -/
theorem Invoke_status_result_witness :
    Invoke sampleInvokeEnv sampleScore "get" [] =
      (Status.StatusOther 3, some (Iface.value 7), 0) :=
  (Invoke_status_result sampleInvokeEnv sampleScore "get" []
    { In := []
      Call := fun _ => some [Iface.value 7,
        Iface.error { code := ErrorCode.InvalidStateError, msg := "bad" }] }
    [] [] [Iface.value 7, Iface.error { code := ErrorCode.InvalidStateError, msg := "bad" }]
    rfl rfl rfl rfl rfl).1

end InvokeProofs

section CheckMethodProofs

theorem checkTypes_error_code (invalid : DataType → GoType → Option Bool) (msg : String)
    (ps : List (DataType × GoType)) (e : GoError)
    (h : checkTypes invalid msg ps = CheckResult.error e) :
    e.code = ErrorCode.InvalidStateError := by
  induction ps with
  | nil => simp [checkTypes] at h
  | cons p rest ih =>
    obtain ⟨dt, t⟩ := p
    simp only [checkTypes] at h
    split at h
    · simp at h
    · simp only [CheckResult.error.injEq] at h; rw [← h]
    · exact ih h

theorem checkOne_error_code (mi : ApiMethod) (m : GoMethod) (e : GoError)
    (h : checkOne mi m = CheckResult.error e) : e.code = ErrorCode.InvalidStateError := by
  unfold checkOne at h
  by_cases hin : (mi.Inputs.length : Int) ≠ (m.In.length : Int) - 1
  · rw [if_pos hin] at h
    simp only [CheckResult.error.injEq] at h; rw [← h]
  · rw [if_neg hin] at h
    cases hct : checkTypes inputInvalid
        "wrong system score signature. method : %s, expected input"
        (mi.Inputs.zip (m.In.drop 1)) with
    | ok =>
      rw [hct] at h
      simp only at h
      by_cases hout : (mi.Outputs.length : Int) ≠ (m.Out.length : Int) - 1
      · rw [if_pos hout] at h
        simp only [CheckResult.error.injEq] at h; rw [← h]
      · rw [if_neg hout] at h
        exact checkTypes_error_code _ _ _ e h
    | error e' =>
      rw [hct] at h
      simp only [CheckResult.error.injEq] at h
      subst h
      exact checkTypes_error_code _ _ _ _ hct
    | panic => rw [hct] at h; simp at h

theorem checkOne_mismatch (mi : ApiMethod) (m : GoMethod)
    (h : (mi.Inputs.length : Int) ≠ (m.In.length : Int) - 1 ∨
      (mi.Outputs.length : Int) ≠ (m.Out.length : Int) - 1) :
    checkOne mi m ≠ CheckResult.ok := by
  unfold checkOne
  by_cases hin : (mi.Inputs.length : Int) ≠ (m.In.length : Int) - 1
  · rw [if_pos hin]; simp
  · rw [if_neg hin]
    have hout : (mi.Outputs.length : Int) ≠ (m.Out.length : Int) - 1 := by
      rcases h with h | h
      · exact absurd h hin
      · exact h
    split
    · rw [if_pos hout]; simp
    · next res hne => exact fun hh => hne hh

/-- Every error `CheckMethod` returns is an InvalidStateError. -/
theorem CheckMethod_error_code (obj : SystemScore) (e : GoError)
    (h : CheckMethod obj = CheckResult.error e) : e.code = ErrorCode.InvalidStateError := by
  unfold CheckMethod at h
  generalize obj.Methods = ms at h
  induction ms with
  | nil => simp [checkMethods] at h
  | cons m rest ih =>
    simp only [checkMethods] at h
    by_cases hp : HasPrefix m.Name FUNC_PREFIX = false
    · rw [if_pos hp] at h; exact ih h
    · rw [if_neg hp] at h
      cases hmi : obj.GetMethod (TrimPrefix m.Name FUNC_PREFIX) with
      | none => rw [hmi] at h; exact ih h
      | some mi =>
        rw [hmi] at h
        simp only at h
        cases hco : checkOne mi m with
        | ok => rw [hco] at h; exact ih h
        | error e' =>
          rw [hco] at h
          simp only [CheckResult.error.injEq] at h
          subst h
          exact checkOne_error_code mi m _ hco
        | panic => rw [hco] at h; simp at h

/-- While `CheckMethod` does not panic, a checked method whose declared inputs or outputs
differ in number from the Go signature makes it return an error, never `nil`. -/
theorem CheckMethod_mismatch_not_ok (obj : SystemScore) (m : GoMethod) (mi : ApiMethod)
    (hm : m ∈ obj.Methods) (hp : HasPrefix m.Name FUNC_PREFIX = true)
    (hmi : obj.GetMethod (TrimPrefix m.Name FUNC_PREFIX) = some mi)
    (h : (mi.Inputs.length : Int) ≠ (m.In.length : Int) - 1 ∨
      (mi.Outputs.length : Int) ≠ (m.Out.length : Int) - 1) :
    CheckMethod obj ≠ CheckResult.ok := by
  unfold CheckMethod
  generalize obj.Methods = ms at hm
  induction ms with
  | nil => simp at hm
  | cons m' rest ih =>
    simp only [checkMethods]
    rcases List.mem_cons.mp hm with heq | hrest
    · subst heq
      simp only [hp, Bool.true_eq_false, if_false, hmi]
      split
      · next hok => exact absurd hok (checkOne_mismatch mi m h)
      · next res hne => exact fun hh => hne hh
    · split
      · exact ih hrest
      · split
        · exact ih hrest
        · split
          · exact ih hrest
          · next res hne => exact fun hh => hne hh

/-- Methods without the `Ex_` tag or without an API entry never change what `CheckMethod`
does. -/
theorem CheckMethod_skips (obj : SystemScore) :
    CheckMethod obj =
      CheckMethod { obj with Methods := obj.Methods.filter obj.checked } := by
  unfold CheckMethod
  simp only
  generalize obj.Methods = ms
  induction ms with
  | nil => rfl
  | cons m rest ih =>
    by_cases hp : HasPrefix m.Name FUNC_PREFIX = true
    · cases hmi : obj.GetMethod (TrimPrefix m.Name FUNC_PREFIX) with
      | none =>
        rw [List.filter_cons_of_neg (by simp [SystemScore.checked, hmi])]
        simp only [checkMethods, hp, Bool.true_eq_false, if_false, hmi]
        exact ih
      | some mi =>
        rw [List.filter_cons_of_pos (by simp [SystemScore.checked, hmi, hp])]
        simp only [checkMethods, hp, Bool.true_eq_false, if_false, hmi]
        split
        · exact ih
        · rfl
    · have hp' : HasPrefix m.Name FUNC_PREFIX = false := by simpa using hp
      rw [List.filter_cons_of_neg (by simp [SystemScore.checked, hp'])]
      simp only [checkMethods, hp', if_true]
      exact ih

/-- C16 at the failing input: `badOwnerScore` declares no output for a method that
returns a value and an error, and one `Address` input for a `string` parameter;
`CheckMethod` does not return InvalidStateError, it panics in `Implements` while checking
the input. With a well-typed signature and the same output mismatch (`badRevisionScore`)
it does return InvalidStateError. -/
theorem CheckMethod_panics_on_address :
    CheckMethod badOwnerScore = CheckResult.panic ∧
      CheckMethod badRevisionScore =
        CheckResult.error { code := ErrorCode.InvalidStateError,
                            msg := "Wrong method output. method[%s]\n" } := by
  decide

end CheckMethodProofs

section TestProtocols

/-- The five protocol identifiers of `network_test.go` fit in sixteen bits, are pairwise
distinct, and have a zero low byte. -/
theorem testSubProtocols_distinct :
    [ProtoTestNetworkBroadcast, ProtoTestNetworkMulticast, ProtoTestNetworkRequest,
      ProtoTestNetworkResponse, ProtoTestNetworkNeighbor].Nodup ∧
    ∀ p ∈ [ProtoTestNetworkBroadcast, ProtoTestNetworkMulticast, ProtoTestNetworkRequest,
      ProtoTestNetworkResponse, ProtoTestNetworkNeighbor], p < 65536 ∧ p &&& 0xFF = 0 := by
  decide

end TestProtocols

section NewGenesisProofs
variable {A : Type}

theorem IDcalls_cached (envs : List HashEnv) (g : genesisV3 A) (h : Bytes)
    (hid : g.json.txHash = some h) :
    genesisV3.IDcalls envs g = (List.replicate envs.length (some h), g) := by
  induction envs with
  | nil => rfl
  | cons env envs ih =>
    simp only [genesisV3.IDcalls, ID_cached env g h hid, ih, List.length_cons,
      List.replicate_succ]

/-- The sample decoder and hash functions give a transaction on a non-empty input, with
the hash stored. -/
theorem newGenesisV3_sample :
    (newGenesisV3 sampleHashEnv sampleUnmarshal [1]).toOption.map
      (fun tx => (tx.Bytes, tx.json.txHash)) = some ([1], some [1, 2, 3, 4]) := by
  rfl

/-- C21: `newGenesisV3(js)` fails with IllegalArgumentError when `js` does not decode, and
with IllegalArgumentError `NoAccounts` when the decoded account list is empty (or absent);
when it succeeds, `Bytes()` and `MarshalJSON()` return `js`, the transaction hash is
already stored as SHA3-256 of `genesis_tx.` followed by the serialized `js`, and any
number of later `ID()` calls return that stored value and leave the transaction as it is,
whatever the hash function would now compute (it is not consulted again). -/
theorem newGenesisV3_result (env : HashEnv)
    (Unmarshal : Bytes → Except GoError (genesisFields A)) (js : Bytes) :
    (∀ e, Unmarshal js = Except.error e →
      ∃ msg, newGenesisV3 env Unmarshal js =
        Except.error { code := ErrorCode.IllegalArgumentError, msg := msg }) ∧
    (∀ f, Unmarshal js = Except.ok f → f.Accounts = [] →
      newGenesisV3 env Unmarshal js =
        Except.error { code := ErrorCode.IllegalArgumentError, msg := "NoAccounts" }) ∧
    (∀ tx, newGenesisV3 env Unmarshal js = Except.ok tx →
      tx.Bytes = js ∧ tx.MarshalJSON = (js, none) ∧
      ∃ bs, env.SerializeJSON js = Except.ok bs ∧
        tx.json.txHash = some (env.SHA3Sum256 (genesisTxTag ++ bs)) ∧
        ∀ envs : List HashEnv, genesisV3.IDcalls envs tx =
          (List.replicate envs.length (some (env.SHA3Sum256 (genesisTxTag ++ bs))), tx)) := by
  refine ⟨?_, ?_, ?_⟩
  · intro e he
    exact ⟨"Invalid json for genesis(%s)", by simp [newGenesisV3, he]⟩
  · intro f hf hacc
    simp [newGenesisV3, hf, hacc]
  · intro tx htx
    unfold newGenesisV3 at htx
    cases hU : Unmarshal js with
    | error e => rw [hU] at htx; simp at htx
    | ok f =>
      rw [hU] at htx
      simp only at htx
      by_cases hlen : f.Accounts.length ≠ 0
      · rw [if_pos hlen] at htx
        cases hS : env.SerializeJSON js with
        | error e =>
          simp [genesisV3JSON.updateTxHash, genesisV3JSON.calcHash, hS] at htx
        | ok bs =>
          simp only [genesisV3JSON.updateTxHash, genesisV3JSON.calcHash, hS,
            Except.ok.injEq] at htx
          subst htx
          refine ⟨rfl, rfl, bs, rfl, rfl, ?_⟩
          intro envs
          exact IDcalls_cached envs _ _ rfl
      · rw [if_neg hlen] at htx; simp at htx

end NewGenesisProofs

section WaitEventProofs

theorem mapGet_mapSet_self {K V : Type} [DecidableEq K] (m : List (K × V)) (k : K) (v : V) :
    mapGet (mapSet m k v) k = some v := by
  induction m with
  | nil => simp [mapSet, mapGet]
  | cons e rest ih =>
    obtain ⟨k1, v1⟩ := e
    by_cases h : k1 = k
    · simp [mapSet, mapGet, h]
    · simp [mapSet, mapGet, h, ih]

theorem mapGet_mapSet_ne {K V : Type} [DecidableEq K] (m : List (K × V)) (k k2 : K) (v : V)
    (hne : k2 ≠ k) : mapGet (mapSet m k v) k2 = mapGet m k2 := by
  induction m with
  | nil => simp [mapSet, mapGet, hne.symm]
  | cons e rest ih =>
    obtain ⟨k1, v1⟩ := e
    by_cases h : k1 = k
    · subst h
      simp [mapSet, mapGet, hne.symm]
    · by_cases h2 : k1 = k2
      · subst h2
        simp [mapSet, mapGet, h]
      · simp [mapSet, mapGet, h, h2, ih]

theorem mapGet_isSome_iff {K V : Type} [DecidableEq K] (m : List (K × V)) (k : K) :
    (∃ v, mapGet m k = some v) ↔ k ∈ mapKeys m := by
  induction m with
  | nil => simp [mapGet, mapKeys]
  | cons e rest ih =>
    obtain ⟨k1, v1⟩ := e
    by_cases h : k1 = k
    · simp [mapGet, mapKeys, h]
    · have h2 : ¬ k = k1 := fun h3 => h h3.symm
      simp only [mapGet, if_neg h, ih, mapKeys, List.map_cons, List.mem_cons, h2, false_or]

theorem mem_mapKeys_mapSet {K V : Type} [DecidableEq K] (m : List (K × V)) (k k2 : K) (v : V) :
    k2 ∈ mapKeys (mapSet m k v) ↔ k2 = k ∨ k2 ∈ mapKeys m := by
  rw [← mapGet_isSome_iff, ← mapGet_isSome_iff]
  by_cases h : k2 = k
  · subst h
    simp [mapGet_mapSet_self]
  · rw [mapGet_mapSet_ne m k k2 v h]
    simp [h]

theorem nodup_mapKeys_mapSet {K V : Type} [DecidableEq K] (m : List (K × V)) (k : K) (v : V)
    (hnd : (mapKeys m).Nodup) : (mapKeys (mapSet m k v)).Nodup := by
  induction m with
  | nil => simp [mapSet, mapKeys]
  | cons e rest ih =>
    obtain ⟨k1, v1⟩ := e
    have hnd2 : k1 ∉ mapKeys rest ∧ (mapKeys rest).Nodup := by
      simpa [mapKeys] using hnd
    by_cases h : k1 = k
    · subst h
      simpa [mapSet, mapKeys] using hnd
    · have hk : k1 ∉ mapKeys (mapSet rest k v) := by
        rw [mem_mapKeys_mapSet]
        intro hor
        cases hor with
        | inl h1 => exact h h1
        | inr h1 => exact hnd2.1 h1
      have := ih hnd2.2
      simp only [mapSet, if_neg h, mapKeys, List.map_cons, List.nodup_cons]
      exact ⟨hk, this⟩

theorem mem_iff_mapGet {K V : Type} [DecidableEq K] (m : List (K × V))
    (hnd : (mapKeys m).Nodup) (k : K) (v : V) : (k, v) ∈ m ↔ mapGet m k = some v := by
  induction m with
  | nil => simp [mapGet]
  | cons e rest ih =>
    obtain ⟨k1, v1⟩ := e
    have hnd2 : k1 ∉ mapKeys rest ∧ (mapKeys rest).Nodup := by
      simpa [mapKeys] using hnd
    by_cases h : k1 = k
    · subst h
      have hno : ∀ w, (k1, w) ∉ rest := by
        intro w hw
        exact hnd2.1 (List.mem_map_of_mem Prod.fst hw)
      simp only [mapGet, if_true, List.mem_cons, Prod.mk.injEq, true_and, hno, or_false,
        Option.some.injEq]
      exact eq_comm
    · have h2 : ¬ k = k1 := fun h3 => h h3.symm
      simp only [mapGet, if_neg h, List.mem_cons, Prod.mk.injEq, h2, false_and, false_or,
        ih hnd2.2]

theorem done_iff (n : Int) (m : EventMap) (hnd : (mapKeys m).Nodup) :
    waitEvent.done n m = true ↔ ∀ p rm, mapGet m p = some rm → n ≤ (rm.length : Int) := by
  unfold waitEvent.done
  rw [List.all_eq_true]
  constructor
  · intro h p rm hget
    have := h (p, rm) ((mem_iff_mapGet m hnd p rm).2 hget)
    simpa using this
  · intro h e he
    obtain ⟨p, rm⟩ := e
    have := h p rm ((mem_iff_mapGet m hnd p rm).1 he)
    simpa using this

theorem mem_mapKeys_countName (rm : NameMap) (rname k : String) :
    k ∈ mapKeys (countName rm rname) ↔ k = rname ∨ k ∈ mapKeys rm := by
  unfold countName
  cases h : mapGet rm rname with
  | some c =>
    simp only [mem_mapKeys_mapSet]
  | none =>
    simp only [mem_mapKeys_mapSet]
    tauto

theorem nodup_mapKeys_countName (rm : NameMap) (rname : String)
    (hnd : (mapKeys rm).Nodup) : (mapKeys (countName rm rname)).Nodup := by
  unfold countName
  cases h : mapGet rm rname with
  | some c => exact nodup_mapKeys_mapSet _ _ _ hnd
  | none => exact nodup_mapKeys_mapSet _ _ _ (nodup_mapKeys_mapSet _ _ _ hnd)

theorem length_eq_card (rm : NameMap) (hnd : (mapKeys rm).Nodup) :
    rm.length = (mapKeys rm).toFinset.card := by
  rw [List.toFinset_card_of_nodup hnd]
  simp [mapKeys]

theorem expectedOnly_mono (evt : String) (l1 l2 : List PeerID)
    (h : ∀ p, p ∈ l1 → p ∈ l2) :
    ∀ stream, expectedOnly evt l1 stream → expectedOnly evt l2 stream
  | [], _ => trivial
  | TestCtx.other :: rest, hs => expectedOnly_mono evt l1 l2 h rest hs
  | TestCtx.event _ _ _ :: rest, hs =>
    ⟨fun he => h _ (hs.1 he), expectedOnly_mono evt l1 l2 h rest hs.2⟩

theorem loop_result (n : Int) (evt : String) :
    ∀ (rest : List TestCtx) (m : EventMap),
      (mapKeys m).Nodup →
      (∀ p rm, mapGet m p = some rm → (mapKeys rm).Nodup) →
      expectedOnly evt (mapKeys m) rest →
      waitEvent.done n m = false →
      waitEvent.loop n evt m rest ≠ WaitOutcome.panic ∧
      ((∃ m1, waitEvent.loop n evt m rest = WaitOutcome.nil m1) ↔
        ∀ p rm, mapGet m p = some rm →
          n ≤ ((((mapKeys rm).toFinset ∪ (reporters evt p rest).toFinset).card : Nat) : Int))
  | [], m, hnd, hin, _, hdone => by
    refine ⟨by simp [waitEvent.loop], ?_⟩
    simp only [waitEvent.loop, reporters, List.toFinset_nil, Finset.union_empty]
    constructor
    · rintro ⟨m1, h⟩
      exact absurd h (by simp)
    · intro h
      have hd : waitEvent.done n m = true := by
        rw [done_iff n m hnd]
        intro p rm hget
        rw [length_eq_card rm (hin p rm hget)]
        exact h p rm hget
      rw [hd] at hdone
      exact absurd hdone (by simp)
  | TestCtx.other :: rest, m, hnd, hin, hexp, hdone => by
    simp only [waitEvent.loop, reporters]
    exact loop_result n evt rest m hnd hin hexp hdone
  | TestCtx.event revt rname rpeer :: rest, m, hnd, hin, hexp, hdone => by
    by_cases hev : revt = evt
    · have hmem : rpeer ∈ mapKeys m := hexp.1 hev
      obtain ⟨rm, hget⟩ := (mapGet_isSome_iff m rpeer).2 hmem
      have hnd1 : (mapKeys (mapSet m rpeer (countName rm rname))).Nodup :=
        nodup_mapKeys_mapSet _ _ _ hnd
      have hin1 : ∀ p rm1, mapGet (mapSet m rpeer (countName rm rname)) p = some rm1 →
          (mapKeys rm1).Nodup := by
        intro p rm1 h1
        by_cases hp : p = rpeer
        · subst hp
          rw [mapGet_mapSet_self] at h1
          cases h1
          exact nodup_mapKeys_countName rm rname (hin p rm hget)
        · rw [mapGet_mapSet_ne _ _ _ _ hp] at h1
          exact hin p rm1 h1
      have hexp1 : expectedOnly evt (mapKeys (mapSet m rpeer (countName rm rname))) rest :=
        expectedOnly_mono evt _ _
          (fun p hp => (mem_mapKeys_mapSet m rpeer p _).2 (Or.inr hp)) rest hexp.2
      have key : (∀ p rm1, mapGet (mapSet m rpeer (countName rm rname)) p = some rm1 →
            n ≤ ((((mapKeys rm1).toFinset ∪ (reporters evt p rest).toFinset).card : Nat)
              : Int)) ↔
          ∀ p rm0, mapGet m p = some rm0 →
            n ≤ ((((mapKeys rm0).toFinset ∪
              (reporters evt p (TestCtx.event revt rname rpeer :: rest)).toFinset).card
                : Nat) : Int) := by
        have hset : (mapKeys (countName rm rname)).toFinset ∪
              (reporters evt rpeer rest).toFinset =
            (mapKeys rm).toFinset ∪ (rname :: reporters evt rpeer rest).toFinset := by
          ext k
          simp only [Finset.mem_union, List.mem_toFinset, mem_mapKeys_countName,
            List.mem_cons]
          tauto
        constructor
        · intro h p rm0 h0
          by_cases hp : p = rpeer
          · subst hp
            rw [hget] at h0
            cases h0
            have := h p _ (mapGet_mapSet_self m p _)
            rw [hset] at this
            simpa [reporters, hev] using this
          · have := h p rm0 (by rw [mapGet_mapSet_ne _ _ _ _ hp]; exact h0)
            have hne : ¬ rpeer = p := fun h3 => hp h3.symm
            simpa [reporters, hev, hne] using this
        · intro h p rm1 h1
          by_cases hp : p = rpeer
          · subst hp
            rw [mapGet_mapSet_self] at h1
            cases h1
            have := h p rm hget
            rw [hset]
            simpa [reporters, hev] using this
          · rw [mapGet_mapSet_ne _ _ _ _ hp] at h1
            have := h p rm1 h1
            have hne : ¬ rpeer = p := fun h3 => hp h3.symm
            simpa [reporters, hev, hne] using this
      cases hd : waitEvent.done n (mapSet m rpeer (countName rm rname)) with
      | true =>
        have hl : waitEvent.loop n evt m (TestCtx.event revt rname rpeer :: rest) =
            WaitOutcome.nil (mapSet m rpeer (countName rm rname)) := by
          simp only [waitEvent.loop, if_pos hev, hget, hd, if_true]
        rw [hl]
        refine ⟨by simp, ?_⟩
        constructor
        · intro _
          rw [← key]
          intro p rm1 h1
          have h2 := (done_iff n _ hnd1).1 hd p rm1 h1
          rw [length_eq_card rm1 (hin1 p rm1 h1)] at h2
          have h3 : (mapKeys rm1).toFinset.card ≤
              ((mapKeys rm1).toFinset ∪ (reporters evt p rest).toFinset).card :=
            Finset.card_le_card Finset.subset_union_left
          omega
        · intro _
          exact ⟨_, rfl⟩
      | false =>
        have hl : waitEvent.loop n evt m (TestCtx.event revt rname rpeer :: rest) =
            waitEvent.loop n evt (mapSet m rpeer (countName rm rname)) rest := by
          simp only [waitEvent.loop, if_pos hev, hget, hd]
          rfl
        rw [hl]
        have ih := loop_result n evt rest _ hnd1 hin1 hexp1 hd
        exact ⟨ih.1, ih.2.trans key⟩
    · have hl : waitEvent.loop n evt m (TestCtx.event revt rname rpeer :: rest) =
          waitEvent.loop n evt m rest := by
        simp only [waitEvent.loop, if_neg hev]
      have hr : ∀ p, reporters evt p (TestCtx.event revt rname rpeer :: rest) =
          reporters evt p rest := by
        intro p
        simp [reporters, hev]
      rw [hl]
      simp only [hr]
      exact loop_result n evt rest m hnd hin hexp.2 hdone

theorem init_foldl (peers : List PeerID) :
    ∀ m : EventMap, (mapKeys m).Nodup → (∀ p rm, mapGet m p = some rm → rm = []) →
      (mapKeys (peers.foldl (fun m p => mapSet m p []) m)).Nodup ∧
      (∀ p, p ∈ mapKeys (peers.foldl (fun m p => mapSet m p []) m) ↔
        p ∈ peers ∨ p ∈ mapKeys m) ∧
      (∀ p rm, mapGet (peers.foldl (fun m p => mapSet m p []) m) p = some rm → rm = []) := by
  induction peers with
  | nil =>
    intro m hnd hv
    exact ⟨hnd, fun p => by simp, hv⟩
  | cons q peers ih =>
    intro m hnd hv
    have hv1 : ∀ p rm, mapGet (mapSet m q ([] : NameMap)) p = some rm → rm = [] := by
      intro p rm h
      by_cases hp : p = q
      · subst hp
        rw [mapGet_mapSet_self] at h
        cases h
        rfl
      · rw [mapGet_mapSet_ne _ _ _ _ hp] at h
        exact hv p rm h
    obtain ⟨h1, h2, h3⟩ := ih (mapSet m q []) (nodup_mapKeys_mapSet _ _ _ hnd) hv1
    refine ⟨h1, ?_, h3⟩
    intro p
    rw [List.foldl_cons, h2 p, mem_mapKeys_mapSet, List.mem_cons]
    tauto

theorem init_keys (peers : List PeerID) :
    (mapKeys (waitEvent.init peers)).Nodup ∧
    (∀ p, p ∈ mapKeys (waitEvent.init peers) ↔ p ∈ peers) ∧
    (∀ p rm, mapGet (waitEvent.init peers) p = some rm → rm = []) := by
  obtain ⟨h1, h2, h3⟩ := init_foldl peers [] (by simp [mapKeys]) (by simp [mapGet])
  refine ⟨h1, ?_, h3⟩
  intro p
  rw [waitEvent.init, h2 p]
  simp [mapKeys]

/-- An event of the awaited kind about a peer that is not expected makes `waitEvent`
panic, whatever was expected and whatever follows. -/
theorem waitEvent_unexpected_peer_panics (n : Int) (evt : String) (peers : List PeerID)
    (rname : String) (rpeer : PeerID) (rest : List TestCtx) (h : rpeer ∉ peers) :
    waitEvent n evt peers (TestCtx.event evt rname rpeer :: rest) = WaitOutcome.panic := by
  have hnone : mapGet (waitEvent.init peers) rpeer = none := by
    cases hg : mapGet (waitEvent.init peers) rpeer with
    | none => rfl
    | some rm =>
      exact absurd (((init_keys peers).2.1 rpeer).1
        ((mapGet_isSome_iff _ _).1 ⟨rm, hg⟩)) h
  simp only [waitEvent, waitEvent.loop, if_true, hnone]

/-- When every event of the awaited kind is about an expected peer, at least one peer is
expected and `n` is positive, `waitEvent` does not panic, and it returns a nil error
exactly when the stream reports every expected peer under at least `n` distinct reactor
names. -/
theorem waitEvent_expected_peers (n : Int) (evt : String) (peers : List PeerID)
    (stream : List TestCtx) (hn : 1 ≤ n) (hp : peers ≠ [])
    (hexp : expectedOnly evt peers stream) :
    waitEvent n evt peers stream ≠ WaitOutcome.panic ∧
    ((∃ m, waitEvent n evt peers stream = WaitOutcome.nil m) ↔
      ∀ p, p ∈ peers → n ≤ (((reporters evt p stream).toFinset.card : Nat) : Int)) := by
  obtain ⟨h1, h2, h3⟩ := init_keys peers
  have hdone : waitEvent.done n (waitEvent.init peers) = false := by
    cases hd : waitEvent.done n (waitEvent.init peers) with
    | false => rfl
    | true =>
      obtain ⟨q, hq⟩ := List.exists_mem_of_ne_nil peers hp
      obtain ⟨rm, hg⟩ := (mapGet_isSome_iff _ _).2 ((h2 q).2 hq)
      have hle := (done_iff n _ h1).1 hd q rm hg
      rw [h3 q rm hg] at hle
      simp at hle
      omega
  have hin : ∀ p rm, mapGet (waitEvent.init peers) p = some rm → (mapKeys rm).Nodup := by
    intro p rm hg
    rw [h3 p rm hg]
    simp [mapKeys]
  have hexp1 : expectedOnly evt (mapKeys (waitEvent.init peers)) stream :=
    expectedOnly_mono evt _ _ (fun p hp1 => (h2 p).2 hp1) stream hexp
  obtain ⟨r1, r2⟩ := loop_result n evt stream (waitEvent.init peers) h1 hin hexp1 hdone
  refine ⟨r1, ?_⟩
  unfold waitEvent
  rw [r2]
  constructor
  · intro h p hp1
    obtain ⟨rm, hg⟩ := (mapGet_isSome_iff _ _).2 ((h2 p).2 hp1)
    have := h p rm hg
    rw [h3 p rm hg] at this
    simpa [mapKeys] using this
  · intro h p rm hg
    have hp1 : p ∈ peers := (h2 p).1 ((mapGet_isSome_iff _ _).1 ⟨rm, hg⟩)
    have := h p hp1
    rw [h3 p rm hg]
    simpa [mapKeys] using this

/-- C22 (the code breaks it): with peer 1 expected and `n = 1`, the stream reports the
unexpected peer 2 and then peer 1 under the awaited event `NotAllowed`. Every expected
peer is reported by one reactor name, so the claim has `waitEvent` ignore the first event
and return nil; the code panics at the first event (it writes to the nil inner map of
peer 2), while without that event it does return nil. -/
theorem waitEvent_unexpected_peer_sample :
    waitEvent 1 "NotAllowed" [1]
        [TestCtx.event "NotAllowed" "r0" 2, TestCtx.event "NotAllowed" "r0" 1] =
      WaitOutcome.panic ∧
    waitEvent 1 "NotAllowed" [1] [TestCtx.event "NotAllowed" "r0" 1] =
      WaitOutcome.nil [(1, [("r0", 1)])] ∧
    (∀ p, p ∈ [1] → (1 : Int) ≤ (((reporters "NotAllowed" p
        [TestCtx.event "NotAllowed" "r0" 2, TestCtx.event "NotAllowed" "r0" 1]).toFinset.card
          : Nat) : Int)) := by
  refine ⟨by decide, by decide, ?_⟩
  intro p hp
  have hp1 : p = 1 := by simpa using hp
  subst hp1
  decide

end WaitEventProofs

end Goloop
